import Mathlib

/-!
Verification development for the arthur-pm task-management data layer.

The first part embeds the typed document model of `src/types.ts` together
with the Mutation Engine operations of `src/App.tsx` and
`src/hooks/useLifeOS.ts` as pure Lean functions (the source mutates a deep
copy of the document; here every operation returns the new document value).
The second part embeds the schema normalizer `normalizeData` over a "raw"
document model whose defaultable fields are `Option`s, mirroring the
untyped input the source accepts.  The third part embeds the load / save
protocol of the Remote Sync Engine as pure transition functions over an
explicit state.
-/

namespace ArthurPM

/-! ## Typed data model (src/types.ts) -/

inductive Status where
  | Backlog
  | InProgress
  | Done
deriving DecidableEq, Repr

inductive Priority where
  | P1
  | P2
  | P3
deriving DecidableEq, Repr

inductive Energy where
  | High
  | Low
deriving DecidableEq, Repr

structure Resource where
  id : String
  title : String
  content : String
  rtype : String
  url : Option String
  createdAt : String
deriving DecidableEq, Repr

structure Attachment where
  id : String
  name : String
  url : String
  atype : String
  size : Nat
  createdAt : String
deriving DecidableEq, Repr

structure Task where
  id : String
  title : String
  description : Option String
  status : Status
  priority : Priority
  contextTags : List String
  energy : Energy
  deadline : Option String
  labels : List String
  attachments : Option (List Attachment)
  createdAt : String
deriving DecidableEq, Repr

structure Phase where
  id : String
  title : String
  description : Option String
  status : Status
  startDate : Option String
  endDate : Option String
  tasks : List Task
  labels : List String
  attachments : Option (List Attachment)
deriving DecidableEq, Repr

structure Project where
  id : String
  title : String
  description : String
  status : Status
  startDate : String
  endDate : String
  tasks : List Task
  phases : List Phase
  resources : List Resource
  labels : List String
  attachments : Option (List Attachment)
deriving DecidableEq, Repr

structure AreaGroup where
  id : String
  title : String
deriving DecidableEq, Repr

structure Area where
  id : String
  title : String
  description : Option String
  icon : String
  tasks : List Task
  projects : List Project
  resources : List Resource
  labels : List String
  groupId : Option String
deriving DecidableEq, Repr

structure LifeOSData where
  areaGroups : List AreaGroup
  areas : List Area
  inbox : List Task
deriving DecidableEq, Repr

/-! ## Generic list helpers

`updateFirst p f l` applies `f` to the first element of `l` satisfying
`p`, leaving everything else in place.  This models the ubiquitous
JavaScript pattern `const x = list.find(pred); if (x) mutate(x);` on a
freshly copied document.  `removeFirstTask` models
`const idx = tasks.findIndex(...); if (idx !== -1) tasks.splice(idx, 1)`. -/

def updateFirst (p : α → Bool) (f : α → α) : List α → List α
  | [] => []
  | x :: xs => if p x then f x :: xs else x :: updateFirst p f xs

def removeFirstTask (taskId : String) : List Task → List Task × Option Task
  | [] => ([], none)
  | t :: ts =>
    if t.id == taskId then (ts, some t)
    else
      let r := removeFirstTask taskId ts
      (t :: r.1, r.2)

/-- JavaScript truthiness on an optional string: `undefined` and `""` are
falsy.  Models guards such as `targetType === 'area' && targetId`. -/
def strTruthy : Option String → Option String
  | none => none
  | some s => if s = "" then none else some s

/-- JavaScript `s || dflt` on a possibly-missing string. -/
def jsOrStr (o : Option String) (dflt : String) : String :=
  match o with
  | none => dflt
  | some s => if s = "" then dflt else s

/-! ## Mutation Engine operations -/

/-- Target selector shared by `handleAddTask` and `moveTask`
(`'inbox' | 'area' | 'project' | 'phase'`). -/
inductive MoveTarget where
  | inbox
  | area
  | project
  | phase
deriving DecidableEq, Repr

/-- `addArea` from `src/hooks/useLifeOS.ts`: builds the new area with empty
collections and does `areas: [...prev.areas, newArea]`. -/
def addArea (newId : String) (title : String) (icon : String)
    (groupId : Option String) (d : LifeOSData) : LifeOSData :=
  let newArea : Area :=
    { id := newId, title := title, description := none, icon := icon
      tasks := [], projects := [], resources := [], labels := []
      groupId := groupId }
  { d with areas := d.areas ++ [newArea] }

/-- Core of `handleAddGroup` from `src/App.tsx`:
`areaGroups: [...(data.areaGroups || []), newGroup]`. -/
def addGroup (newId : String) (title : String) (d : LifeOSData) : LifeOSData :=
  { d with areaGroups := d.areaGroups ++ [{ id := newId, title := title }] }

/-- `handleAddTask` from `src/App.tsx`.  The generated id and creation
timestamp are passed in explicitly (the source draws them from
`generateId()` and `new Date()`). -/
def handleAddTask (newId : String) (createdAt : String) (title : String)
    (target : MoveTarget) (targetId : Option String) (d : LifeOSData) :
    LifeOSData :=
  let newTask : Task :=
    { id := newId
      title := if title = "" then "New Task" else title
      description := some ""
      status := Status.Backlog
      priority := Priority.P2
      contextTags := []
      energy := Energy.Low
      deadline := none
      labels := []
      attachments := none
      createdAt := createdAt }
  match target, strTruthy targetId with
  | MoveTarget.inbox, _ => { d with inbox := newTask :: d.inbox }
  | MoveTarget.area, some i =>
    { d with areas :=
        (updateFirst (fun a => a.id == i)
          (fun a => { a with tasks := newTask :: a.tasks }) d.areas) }
  | MoveTarget.project, some i =>
    { d with areas := d.areas.map fun a =>
        { a with projects :=
            (updateFirst (fun p => p.id == i)
              (fun p => { p with tasks := newTask :: p.tasks }) a.projects) } }
  | MoveTarget.phase, some i =>
    { d with areas := d.areas.map fun a =>
        { a with projects := a.projects.map fun p =>
            { p with phases :=
                (updateFirst (fun ph => ph.id == i)
                  (fun ph => { ph with tasks := newTask :: ph.tasks })
                  p.phases) } } }
  | _, none => d

/-- `handleAddProject` from `src/App.tsx`: the first area matching `areaId`
gets `area.projects = [newProject, ...area.projects]`; when no area
matches, `updateData` is never called and the document is unchanged. -/
def handleAddProject (newId : String) (title : String) (areaId : String)
    (startDate endDate : String) (d : LifeOSData) : LifeOSData :=
  let newProject : Project :=
    { id := newId
      title := if title = "" then "New Project" else title
      description := ""
      status := Status.Backlog
      tasks := []
      startDate := startDate
      endDate := endDate
      phases := []
      resources := []
      labels := []
      attachments := none }
  { d with areas :=
      (updateFirst (fun a => a.id == areaId)
        (fun a => { a with projects := newProject :: a.projects }) d.areas) }

/-- `handleAddPhase` from `src/App.tsx`: in every area, the first project
matching `projectId` gets `project.phases = [...project.phases, newPhase]`. -/
def handleAddPhase (newId : String) (title : String) (projectId : String)
    (d : LifeOSData) : LifeOSData :=
  let newPhase : Phase :=
    { id := newId
      title := if title = "" then "New Phase" else title
      description := some ""
      status := Status.Backlog
      startDate := none
      endDate := none
      tasks := []
      labels := []
      attachments := none }
  { d with areas := d.areas.map fun a =>
      { a with projects :=
          (updateFirst (fun p => p.id == projectId)
            (fun p => { p with phases := p.phases ++ [newPhase] })
            a.projects) } }

/-- `deleteTask` from `src/hooks/useLifeOS.ts`: filters the id out of the
inbox, every area's direct list, every project's direct list and every
phase's list. -/
def deleteTask (taskId : String) (d : LifeOSData) : LifeOSData :=
  { d with
    inbox := d.inbox.filter fun t => !(t.id == taskId)
    areas := d.areas.map fun a =>
      { a with
        tasks := a.tasks.filter fun t => !(t.id == taskId)
        projects := a.projects.map fun p =>
          { p with
            tasks := p.tasks.filter fun t => !(t.id == taskId)
            phases := p.phases.map fun ph =>
              { ph with tasks := ph.tasks.filter fun t => !(t.id == taskId) } } } }

/-- In `moveTask`, `taskToMove` is reassigned on every successful
`removeFromList`, so a later find overwrites an earlier one. -/
def keepLatest (acc found : Option Task) : Option Task :=
  match found with
  | some t => some t
  | none => acc

/-- Removal pass of `moveTask` over the phases of one project, threading
the `taskToMove` accumulator in source order. -/
def removeFromPhases (taskId : String) :
    List Phase → Option Task → List Phase × Option Task
  | [], acc => ([], acc)
  | ph :: rest, acc =>
    let r := removeFirstTask taskId ph.tasks
    let rr := removeFromPhases taskId rest (keepLatest acc r.2)
    ({ ph with tasks := r.1 } :: rr.1, rr.2)

/-- Removal pass of `moveTask` over the projects of one area: each
project's direct list first, then its phases. -/
def removeFromProjects (taskId : String) :
    List Project → Option Task → List Project × Option Task
  | [], acc => ([], acc)
  | p :: rest, acc =>
    let r := removeFirstTask taskId p.tasks
    let rp := removeFromPhases taskId p.phases (keepLatest acc r.2)
    let rr := removeFromProjects taskId rest rp.2
    ({ p with tasks := r.1, phases := rp.1 } :: rr.1, rr.2)

/-- Removal pass of `moveTask` over the areas: each area's direct list
first, then its projects. -/
def removeFromAreas (taskId : String) :
    List Area → Option Task → List Area × Option Task
  | [], acc => ([], acc)
  | a :: rest, acc =>
    let r := removeFirstTask taskId a.tasks
    let rp := removeFromProjects taskId a.projects (keepLatest acc r.2)
    let rr := removeFromAreas taskId rest rp.2
    ({ a with tasks := r.1, projects := rp.1 } :: rr.1, rr.2)

/-- The whole removal pass of `moveTask`: inbox first, then the areas. -/
def removeTaskEverywhere (taskId : String) (d : LifeOSData) :
    LifeOSData × Option Task :=
  let r := removeFirstTask taskId d.inbox
  let ra := removeFromAreas taskId d.areas r.2
  ({ d with inbox := r.1, areas := ra.1 }, ra.2)

/-- Insertion pass of `moveTask`: unshift the found task into the target
container.  Mirrors the guards `targetType === '...' && targetId`; when no
container matches, nothing is inserted. -/
def insertTask (t : Task) (targetType : MoveTarget) (targetId : Option String)
    (d : LifeOSData) : LifeOSData :=
  match targetType, strTruthy targetId with
  | MoveTarget.inbox, _ => { d with inbox := t :: d.inbox }
  | MoveTarget.area, some i =>
    { d with areas :=
        (updateFirst (fun a => a.id == i)
          (fun a => { a with tasks := t :: a.tasks }) d.areas) }
  | MoveTarget.project, some i =>
    { d with areas := d.areas.map fun a =>
        { a with projects :=
            (updateFirst (fun p => p.id == i)
              (fun p => { p with tasks := t :: p.tasks }) a.projects) } }
  | MoveTarget.phase, some i =>
    { d with areas := d.areas.map fun a =>
        { a with projects := a.projects.map fun p =>
            { p with phases :=
                (updateFirst (fun ph => ph.id == i)
                  (fun ph => { ph with tasks := t :: ph.tasks })
                  p.phases) } } }
  | _, none => d

/-- `moveTask` from `src/App.tsx`: remove the first occurrence of the id
from every container, then — only when a task was found — unshift it into
the target container and commit; when nothing was found `updateData` is
never called and the document is unchanged. -/
def moveTask (taskId : String) (targetType : MoveTarget)
    (targetId : Option String) (d : LifeOSData) : LifeOSData :=
  let r := removeTaskEverywhere taskId d
  match r.2 with
  | none => d
  | some t => insertTask t targetType targetId r.1

/-- `task.status = task.status === 'Done' ? 'In Progress' : 'Done'`. -/
def toggleTask (t : Task) : Task :=
  { t with status :=
      if t.status = Status.Done then Status.InProgress else Status.Done }

/-- `updateTaskStatus` inside `toggleTaskStatus`: flip the first task
matching the id in one list. -/
def toggleInList (taskId : String) : List Task → List Task :=
  updateFirst (fun t => t.id == taskId) toggleTask

/-- `toggleTaskStatus` from `src/App.tsx`: in every container list, the
first task matching the id gets
`status = status === 'Done' ? 'In Progress' : 'Done'`. -/
def toggleTaskStatus (taskId : String) (d : LifeOSData) : LifeOSData :=
  { d with
    inbox := toggleInList taskId d.inbox
    areas := d.areas.map fun a =>
      { a with
        tasks := toggleInList taskId a.tasks
        projects := a.projects.map fun p =>
          { p with
            tasks := toggleInList taskId p.tasks
            phases := p.phases.map fun ph =>
              { ph with tasks := toggleInList taskId ph.tasks } } } }

/-- Upload target selector of `handleFileUpload`
(`'project' | 'phase' | 'task'`). -/
inductive UploadTarget where
  | project
  | phase
  | task
deriving DecidableEq, Repr

/-- `updateInList` inside the `'task'` branch of `handleFileUpload`: the
first task matching the id gets
`task.attachments = [...(task.attachments || []), attachment]`. -/
def attachInList (targetId : String) (att : Attachment) :
    List Task → List Task :=
  updateFirst (fun t => t.id == targetId) fun t =>
    { t with attachments := some (t.attachments.getD [] ++ [att]) }

/-- `handleFileUpload` from `src/App.tsx`.  The attachment record is passed
in (the source builds it from the `File` object).  Note the `'task'`
branch runs `updateInList` over the inbox and over every phase's task
list only — areas' and projects' direct task lists are never visited. -/
def handleFileUpload (att : Attachment) (targetId : String)
    (ty : UploadTarget) (d : LifeOSData) : LifeOSData :=
  match ty with
  | UploadTarget.task =>
    { d with
      inbox := attachInList targetId att d.inbox
      areas := d.areas.map fun a =>
        { a with projects := a.projects.map fun p =>
            { p with phases := p.phases.map fun ph =>
                { ph with tasks := attachInList targetId att ph.tasks } } } }
  | UploadTarget.project =>
    { d with areas := d.areas.map fun a =>
        { a with projects :=
            (updateFirst (fun p => p.id == targetId)
              (fun p =>
                { p with attachments := some (p.attachments.getD [] ++ [att]) })
              a.projects) } }
  | UploadTarget.phase =>
    { d with areas := d.areas.map fun a =>
        { a with projects := a.projects.map fun p =>
            { p with phases :=
                (updateFirst (fun ph => ph.id == targetId)
                  (fun ph =>
                    { ph with attachments :=
                        (some (ph.attachments.getD [] ++ [att])) })
                  p.phases) } } }

/-! ## Occurrence counting and the one-location invariant -/

/-- Number of tasks with the given id in one task list. -/
def countIn (i : String) (ts : List Task) : Nat :=
  ts.countP fun t => t.id == i

def phaseCount (i : String) (ph : Phase) : Nat := countIn i ph.tasks

def projectCount (i : String) (p : Project) : Nat :=
  countIn i p.tasks + (p.phases.map (phaseCount i)).sum

def areaCount (i : String) (a : Area) : Nat :=
  countIn i a.tasks + (a.projects.map (projectCount i)).sum

/-- Total number of occurrences of a task id across all containers of the
document. -/
def taskCount (i : String) (d : LifeOSData) : Nat :=
  countIn i d.inbox + (d.areas.map (areaCount i)).sum

/-- The one-location invariant: no task id occurs in two containers (nor
twice in one). -/
def OneLoc (d : LifeOSData) : Prop := ∀ i, taskCount i d ≤ 1

/-- Number of projects carrying the given id, over the whole document. -/
def projIdCount (i : String) (d : LifeOSData) : Nat :=
  (d.areas.map fun a => a.projects.countP fun p => p.id == i).sum

/-- Number of phases carrying the given id, over the whole document. -/
def phaseIdCount (i : String) (d : LifeOSData) : Nat :=
  (d.areas.map fun a =>
    (a.projects.map fun p => p.phases.countP fun ph => ph.id == i).sum).sum

/-- Project ids are globally unique (each project belongs to one area). -/
def UniqueProjIds (d : LifeOSData) : Prop := ∀ i, projIdCount i d ≤ 1

/-- Phase ids are globally unique (each phase belongs to one project). -/
def UniquePhaseIds (d : LifeOSData) : Prop := ∀ i, phaseIdCount i d ≤ 1

/-! ## Shapes: the document with every task list erased

Used to state frame conditions of the form "all other entities are
unchanged". -/

def phaseShape (ph : Phase) : Phase := { ph with tasks := [] }

def projectShape (p : Project) : Project :=
  { p with tasks := [], phases := p.phases.map phaseShape }

def areaShape (a : Area) : Area :=
  { a with tasks := [], projects := a.projects.map projectShape }

def docShape (d : LifeOSData) : LifeOSData :=
  { d with inbox := [], areas := d.areas.map areaShape }

/-! ## Raw document model and `normalizeData` (src/hooks/useLifeOS.ts)

`normalizeData` accepts arbitrary (possibly partial) parsed JSON; the raw
model makes every field the normalizer may default an `Option`.  Fields
the normalizer merely copies through the `...spread` keep their raw shape. -/

structure RawTask where
  id : String
  title : Option String
  description : Option String
  status : Option String
  priority : Option String
  contextTags : Option (List String)
  energy : Option String
  deadline : Option String
  labels : Option (List String)
  attachments : Option (List Attachment)
  createdAt : Option String
deriving DecidableEq, Repr

structure RawPhase where
  id : String
  title : Option String
  description : Option String
  status : Option String
  startDate : Option String
  endDate : Option String
  tasks : Option (List RawTask)
  labels : Option (List String)
  attachments : Option (List Attachment)
deriving DecidableEq, Repr

structure RawProject where
  id : String
  title : Option String
  description : Option String
  status : Option String
  startDate : Option String
  endDate : Option String
  tasks : Option (List RawTask)
  phases : Option (List RawPhase)
  resources : Option (List Resource)
  labels : Option (List String)
  attachments : Option (List Attachment)
deriving DecidableEq, Repr

structure RawArea where
  id : String
  title : Option String
  description : Option String
  icon : Option String
  tasks : Option (List RawTask)
  projects : Option (List RawProject)
  resources : Option (List Resource)
  labels : Option (List String)
  groupId : Option String
deriving DecidableEq, Repr

structure RawDoc where
  areaGroups : Option (List AreaGroup)
  areas : Option (List RawArea)
  inbox : Option (List RawTask)
deriving DecidableEq, Repr

/-- The inner `normalizeTask` of `normalizeData`. -/
def normalizeTask (t : RawTask) : RawTask :=
  { t with
    description := some (jsOrStr t.description "")
    labels := some (t.labels.getD [])
    attachments := some (t.attachments.getD [])
    contextTags := some (t.contextTags.getD []) }

/-- Phase normalization inside `normalizeData`. -/
def normalizePhase (ph : RawPhase) : RawPhase :=
  { ph with
    status := some (jsOrStr ph.status "Backlog")
    labels := some (ph.labels.getD [])
    attachments := some (ph.attachments.getD [])
    tasks := some ((ph.tasks.getD []).map normalizeTask) }

/-- Project normalization inside `normalizeData`. -/
def normalizeProject (p : RawProject) : RawProject :=
  { p with
    status := some (jsOrStr p.status "Backlog")
    labels := some (p.labels.getD [])
    attachments := some (p.attachments.getD [])
    tasks := some ((p.tasks.getD []).map normalizeTask)
    phases := some ((p.phases.getD []).map normalizePhase) }

/-- Area normalization inside `normalizeData`. -/
def normalizeArea (a : RawArea) : RawArea :=
  { a with
    labels := some (a.labels.getD [])
    description := some (jsOrStr a.description "")
    tasks := some ((a.tasks.getD []).map normalizeTask)
    projects := some ((a.projects.getD []).map normalizeProject) }

/-- `normalizeData` from `src/hooks/useLifeOS.ts`. -/
def normalizeData (parsed : RawDoc) : RawDoc :=
  { parsed with
    areaGroups := some (parsed.areaGroups.getD [])
    inbox := some ((parsed.inbox.getD []).map normalizeTask)
    areas := some ((parsed.areas.getD []).map normalizeArea) }

/-- An empty raw task list / fully-present raw area, used to spell out
`INITIAL_DATA`. -/
def rawSeedArea (i title icon : String) : RawArea :=
  { id := i, title := some title, description := none, icon := some icon
    tasks := some [], projects := some [], resources := some []
    labels := some [], groupId := none }

/-- `INITIAL_DATA` from `src/hooks/useLifeOS.ts`: two seeded areas, empty
groups and inbox. -/
def INITIAL_DATA : RawDoc :=
  { areaGroups := some []
    areas := some [rawSeedArea "1" "Work" "briefcase",
                   rawSeedArea "2" "Health" "heart"]
    inbox := some [] }

/-- The `useState` initializer of `useLifeOS`:
`normalizeData(saved ? JSON.parse(saved) : INITIAL_DATA)`, with the local
cache read abstracted to an `Option RawDoc`. -/
def initialState (saved : Option RawDoc) : RawDoc :=
  normalizeData (match saved with
    | some s => s
    | none => INITIAL_DATA)

/-! ## Remote Sync Engine (src/hooks/useLifeOS.ts)

The load-on-login effect and the debounced save effect, embedded as pure
transition functions over an explicit engine state.  Network results are
inputs; network requests are outputs. -/

/-- The store error object (`error.code`, `error.message`). -/
structure SbError where
  code : String
  message : String
deriving DecidableEq, Repr

/-- Result of `supabase...select(...).single()`: the row's `data` payload
(absent when no row / `row?.data` is nullish) and the error object. -/
structure ReadResult where
  row : Option RawDoc
  error : Option SbError
deriving DecidableEq, Repr

/-- Engine state visible to the claims: in-memory document, local cache
contents, last surfaced sync error. -/
structure SyncState where
  mem : RawDoc
  cache : Option RawDoc
  lastSyncError : Option String
deriving DecidableEq, Repr

/-- Outcome of one `loadFromCloud` run: the new engine state, the upsert
payload pushed to the remote store (if any), and whether the
`loadedFromCloud` guard was set. -/
structure LoadOutcome where
  st : SyncState
  pushed : Option RawDoc
  loaded : Bool
deriving DecidableEq, Repr

/-- The new-user branch of `loadFromCloud`: read the local cache; when a
local document exists, upsert it to the remote store; either way mark
loaded and clear the error. -/
def loadNewUserBranch (st : SyncState) : LoadOutcome :=
  match st.cache with
  | some localData =>
    { st := { st with lastSyncError := none }
      pushed := some localData, loaded := true }
  | none =>
    { st := { st with lastSyncError := none }, pushed := none, loaded := true }

/-- `loadFromCloud` from `src/hooks/useLifeOS.ts`, with the remote read
result supplied as input.  A read error whose code is not `PGRST116`
records the message and returns early; otherwise an existing row is
adopted, normalized and cached, and an absent row triggers the new-user
seed push. -/
def loadFromCloud (res : ReadResult) (st : SyncState) : LoadOutcome :=
  match res.error with
  | some e =>
    if e.code ≠ "PGRST116" then
      { st := { st with lastSyncError := some e.message }
        pushed := none, loaded := false }
    else
      match res.row with
      | some rowData =>
        let cloudData := normalizeData rowData
        { st := { mem := cloudData, cache := some cloudData,
                  lastSyncError := none }
          pushed := none, loaded := true }
      | none => loadNewUserBranch st
  | none =>
    match res.row with
    | some rowData =>
      let cloudData := normalizeData rowData
      { st := { mem := cloudData, cache := some cloudData,
                lastSyncError := none }
        pushed := none, loaded := true }
    | none => loadNewUserBranch st

/-- Outcome of the remote upsert performed when the debounce timer fires:
store-level success, a store-reported error, or a thrown exception. -/
inductive UpsertOutcome where
  | ok
  | storeError (message : String)
  | thrown (message : String)
deriving DecidableEq, Repr

/-- The body of the `setTimeout` callback of the debounced save effect:
perform the upsert; `if (error) setLastSyncError(error.message) else
setLastSyncError(null)`, with a `catch` recording a thrown message.  The
in-memory document and the local cache are never touched. -/
def fireSave (outcome : UpsertOutcome) (st : SyncState) : SyncState :=
  match outcome with
  | UpsertOutcome.ok => { st with lastSyncError := none }
  | UpsertOutcome.storeError m => { st with lastSyncError := some m }
  | UpsertOutcome.thrown m => { st with lastSyncError := some m }

/-! ### Debounce trace model

The save effect runs on every `data` change: it writes the local cache
synchronously, and — when a user is present — cancels the pending timer
and schedules a fresh one capturing the current document.  When the timer
finally fires, exactly the captured document is upserted. -/

structure DebounceState where
  cacheWrites : List RawDoc
  pending : Option RawDoc
  remoteWrites : List RawDoc
deriving DecidableEq, Repr

/-- One run of the save effect for a document state change. -/
def onChange (user : Bool) (doc : RawDoc) (s : DebounceState) : DebounceState :=
  let s1 := { s with cacheWrites := s.cacheWrites ++ [doc] }
  if user then { s1 with pending := some doc } else s1

/-- The pending debounce timer elapses: the captured document is written
remotely. -/
def fireTimer (s : DebounceState) : DebounceState :=
  match s.pending with
  | some doc =>
    { s with pending := none, remoteWrites := s.remoteWrites ++ [doc] }
  | none => s

/-- A burst of document edits, all within the debounce window (no timer
fires in between). -/
def runEdits (user : Bool) (docs : List RawDoc) (s : DebounceState) :
    DebounceState :=
  docs.foldl (fun st doc => onChange user doc st) s

/-- Initial debounce-trace state: nothing written, no timer pending. -/
def debounceInit : DebounceState :=
  { cacheWrites := [], pending := none, remoteWrites := [] }

/-! ## Derived observation functions used to state the claims -/

/-- First task matching the id in one list (`tasks.find(...)`). -/
def firstMatch (taskId : String) (l : List Task) : Option Task :=
  l.find? fun t => t.id == taskId

/-- Left-biased choice on options. -/
def orO (a b : Option Task) : Option Task :=
  match a with
  | some t => some t
  | none => b

/-- First occurrence of a task id in a phase list, in source traversal
order. -/
def findInPhases (taskId : String) : List Phase → Option Task
  | [] => none
  | ph :: rest => orO (firstMatch taskId ph.tasks) (findInPhases taskId rest)

/-- First occurrence of a task id in a project list (each project's direct
list, then its phases). -/
def findInProjects (taskId : String) : List Project → Option Task
  | [] => none
  | p :: rest =>
    orO (firstMatch taskId p.tasks)
      (orO (findInPhases taskId p.phases) (findInProjects taskId rest))

/-- First occurrence of a task id in an area list. -/
def findInAreas (taskId : String) : List Area → Option Task
  | [] => none
  | a :: rest =>
    orO (firstMatch taskId a.tasks)
      (orO (findInProjects taskId a.projects) (findInAreas taskId rest))

/-- First occurrence of a task id in the document, scanning the containers
in the order the source operations traverse them. -/
def findTask (taskId : String) (d : LifeOSData) : Option Task :=
  orO (firstMatch taskId d.inbox) (findInAreas taskId d.areas)

/-- Does some task in the list carry the id? -/
def hasTask (taskId : String) (l : List Task) : Bool :=
  l.any fun t => t.id == taskId

/-- Bool to Nat. -/
def b2n (b : Bool) : Nat := if b then 1 else 0

/-- Number of task lists among the phases that contain the id (each such
list loses exactly one occurrence in `moveTask`'s removal pass). -/
def matchedPhases (taskId : String) (phs : List Phase) : Nat :=
  (phs.map fun ph => b2n (hasTask taskId ph.tasks)).sum

def matchedProjects (taskId : String) (ps : List Project) : Nat :=
  (ps.map fun p =>
    b2n (hasTask taskId p.tasks) + matchedPhases taskId p.phases).sum

def matchedAreas (taskId : String) (as : List Area) : Nat :=
  (as.map fun a =>
    b2n (hasTask taskId a.tasks) + matchedProjects taskId a.projects).sum

/-- Number of container lists of the document holding the id. -/
def matchedDoc (taskId : String) (d : LifeOSData) : Nat :=
  b2n (hasTask taskId d.inbox) + matchedAreas taskId d.areas

/-- Does the container named by `moveTask`'s target arguments exist in the
document (after the JavaScript truthiness guard on the id)? -/
def targetExists (targetType : MoveTarget) (targetId : Option String)
    (d : LifeOSData) : Bool :=
  match targetType, strTruthy targetId with
  | MoveTarget.inbox, _ => true
  | MoveTarget.area, some i => d.areas.any fun a => a.id == i
  | MoveTarget.project, some i =>
    d.areas.any fun a => a.projects.any fun p => p.id == i
  | MoveTarget.phase, some i =>
    d.areas.any fun a => a.projects.any fun p =>
      p.phases.any fun ph => ph.id == i
  | _, none => false

/-- The container-id skeleton of the document: area ids with their
projects' ids and those projects' phase ids.  The removal pass of
`moveTask` only touches task lists, so it preserves this skeleton. -/
def skelArea (a : Area) : String × List (String × List String) :=
  (a.id, a.projects.map fun p => (p.id, p.phases.map Phase.id))

def skel (d : LifeOSData) : List (String × List (String × List String)) :=
  d.areas.map skelArea

/-! ## Sample documents used for concrete evaluations -/

def sampleTask (i : String) : Task :=
  { id := i, title := "Task " ++ i, description := some ""
    status := Status.Backlog, priority := Priority.P2, contextTags := []
    energy := Energy.Low, deadline := none, labels := [], attachments := none
    createdAt := "2024-01-01T00:00:00.000Z" }

def samplePhase (i : String) (ts : List Task) : Phase :=
  { id := i, title := "Phase " ++ i, description := some ""
    status := Status.Backlog, startDate := none, endDate := none
    tasks := ts, labels := [], attachments := none }

def sampleProject (i : String) (ts : List Task) (phs : List Phase) : Project :=
  { id := i, title := "Project " ++ i, description := ""
    status := Status.Backlog, startDate := "2024-01-01"
    endDate := "2024-01-08", tasks := ts, phases := phs, resources := []
    labels := [], attachments := none }

def sampleArea (i : String) (ts : List Task) (ps : List Project) : Area :=
  { id := i, title := "Area " ++ i, description := none, icon := "briefcase"
    tasks := ts, projects := ps, resources := [], labels := []
    groupId := none }

/-- A document with a single inbox task, used for the `moveTask`
counterexample. -/
def exDocInboxOnly : LifeOSData :=
  { areaGroups := [], areas := [], inbox := [sampleTask "t1"] }

/-- A document with one area holding one project with one phase, and one
task in each of the four container kinds. -/
def exDocFull : LifeOSData :=
  { areaGroups := []
    areas := [sampleArea "a1" [sampleTask "t2"]
      [sampleProject "p1" [sampleTask "t3"]
        [samplePhase "ph1" [sampleTask "t4"]]]]
    inbox := [sampleTask "t1"] }

/-- A raw document carried through the sync-engine witnesses. -/
def exRawDoc : RawDoc :=
  { areaGroups := some [], areas := some [], inbox := some [] }

def exRawDoc2 : RawDoc :=
  { areaGroups := some [{ id := "g1", title := "G" }], areas := some []
    inbox := some [] }

/-- The starting document of the §8 scenario: `{areas: [], inbox: []}`. -/
def scenarioD0 : LifeOSData := { areaGroups := [], areas := [], inbox := [] }

/-- The scenario document after `createTask("Buy milk", inbox)`, with the
generated id / timestamp fixed to `"t1"` / a constant. -/
def scenarioD1 : LifeOSData :=
  handleAddTask "t1" "2024-05-01T10:00:00.000Z" "Buy milk"
    MoveTarget.inbox none scenarioD0

/-! ## Generic list lemmas -/

@[simp]
theorem b2n_true : b2n true = 1 := rfl

@[simp]
theorem b2n_false : b2n false = 0 := rfl

theorem b2n_le_one (b : Bool) : b2n b ≤ 1 := by cases b <;> simp

theorem sum_map_add (f g : α → Nat) :
    ∀ l : List α, (l.map fun x => f x + g x).sum = (l.map f).sum + (l.map g).sum := by
  intro l
  induction l with
  | nil => simp
  | cons x xs ih => simp [ih]; omega

theorem sum_map_congr (f g : α → Nat) :
    ∀ l : List α, (∀ x ∈ l, f x = g x) → (l.map f).sum = (l.map g).sum := by
  intro l
  induction l with
  | nil => simp
  | cons x xs ih =>
    intro h
    simp [h x (by simp), ih fun y hy => h y (by simp [hy])]

theorem map_congr_fun (f g : α → β) :
    ∀ l : List α, (∀ x ∈ l, f x = g x) → l.map f = l.map g := by
  intro l
  induction l with
  | nil => intro _; rfl
  | cons x xs ih =>
    intro h
    simp only [List.map_cons, h x (by simp),
      ih fun y hy => h y (by simp [hy])]

theorem sum_map_le_sum_map (f g : α → Nat) :
    ∀ l : List α, (∀ x ∈ l, f x ≤ g x) → (l.map f).sum ≤ (l.map g).sum := by
  intro l
  induction l with
  | nil => simp
  | cons x xs ih =>
    intro h
    simp only [List.map_cons, List.sum_cons]
    have h1 := h x (by simp)
    have h2 := ih fun y hy => h y (by simp [hy])
    omega

theorem sum_map_eq_zero_iff (f : α → Nat) :
    ∀ l : List α, (l.map f).sum = 0 ↔ ∀ x ∈ l, f x = 0 := by
  intro l
  induction l with
  | nil => simp
  | cons x xs ih =>
    simp only [List.map_cons, List.sum_cons, List.mem_cons]
    constructor
    · intro h y hy
      rcases hy with hy | hy
      · subst hy; omega
      · exact (ih.mp (by omega)) y hy
    · intro h
      have h1 := h x (Or.inl rfl)
      have h2 := ih.mpr fun y hy => h y (Or.inr hy)
      omega

theorem mem_map_le_sum (f : α → Nat) :
    ∀ l : List α, ∀ x ∈ l, f x ≤ (l.map f).sum := by
  intro l
  induction l with
  | nil => simp
  | cons y ys ih =>
    intro x hx
    simp only [List.map_cons, List.sum_cons]
    rcases List.mem_cons.mp hx with h | h
    · subst h; omega
    · have := ih x h; omega

theorem countP_eq_sum_b2n (p : α → Bool) :
    ∀ l : List α, l.countP p = (l.map fun x => b2n (p x)).sum := by
  intro l
  induction l with
  | nil => simp
  | cons x xs ih =>
    by_cases h : p x
    · simp [List.countP_cons, h, ih]; omega
    · simp [List.countP_cons, h, ih]

theorem b2n_any_le_countP (p : α → Bool) (l : List α) :
    b2n (l.any p) ≤ l.countP p := by
  induction l with
  | nil => simp
  | cons x xs ih =>
    simp only [List.any_cons, List.countP_cons]
    by_cases h : p x
    · simp [h]
    · have h0 : p x = false := by simpa using h
      simp [h0]
      omega

/-- Collapse a sum of indicator bits to a single bit when a dominating
count budget is at most one. -/
theorem sum_b2n_eq_b2n_any (flag : α → Bool) (cnt : α → Nat)
    (hle : ∀ x, b2n (flag x) ≤ cnt x) :
    ∀ l : List α, (l.map cnt).sum ≤ 1 →
      (l.map fun x => b2n (flag x)).sum = b2n (l.any flag) := by
  intro l
  induction l with
  | nil => simp
  | cons x xs ih =>
    intro h
    simp only [List.map_cons, List.sum_cons, List.any_cons] at h ⊢
    by_cases hx : flag x
    · have h1 : 1 ≤ cnt x := by have := hle x; simp [hx] at this; omega
      have h2 : (xs.map cnt).sum = 0 := by omega
      have h3 : (xs.map fun y => b2n (flag y)).sum = 0 := by
        have := sum_map_le_sum_map (fun y => b2n (flag y)) cnt xs
          fun y _ => hle y
        omega
      simp [hx, h3]
    · have hx0 : flag x = false := by simpa using hx
      have h2 : (xs.map cnt).sum ≤ 1 := by omega
      simp [hx0, ih h2]

theorem updateFirst_of_not_any (p : α → Bool) (f : α → α) :
    ∀ l : List α, l.any p = false → updateFirst p f l = l := by
  intro l
  induction l with
  | nil => intro _; rfl
  | cons x xs ih =>
    intro h
    simp only [List.any_cons, Bool.or_eq_false_iff] at h
    simp [updateFirst, h.1, ih h.2]

theorem updateFirst_append_cons (p : α → Bool) (f : α → α) (x : α)
    (hx : p x = true) :
    ∀ (pre post : List α), (∀ y ∈ pre, p y = false) →
      updateFirst p f (pre ++ x :: post) = pre ++ f x :: post := by
  intro pre
  induction pre with
  | nil => intro post _; simp [updateFirst, hx]
  | cons a as ih =>
    intro post h
    have ha := h a (by simp)
    simp only [List.cons_append, updateFirst, ha]
    simp [ih post fun y hy => h y (by simp [hy])]

theorem map_map_eq_map (g f : α → α) (h : ∀ x, f (g x) = f x) :
    ∀ l : List α, (l.map g).map f = l.map f := by
  intro l
  induction l with
  | nil => rfl
  | cons x xs ih => simp only [List.map_cons, h, ih]

theorem map_eq_self_of (f : α → α) :
    ∀ l : List α, (∀ x ∈ l, f x = x) → l.map f = l := by
  intro l
  induction l with
  | nil => intro _; rfl
  | cons x xs ih =>
    intro h
    simp only [List.map_cons, h x (by simp),
      ih fun y hy => h y (by simp [hy])]

theorem sum_map_updateFirst_eq (g : α → Nat) (p : α → Bool) (f : α → α)
    (hf : ∀ x, p x = true → g (f x) = g x) :
    ∀ l : List α, ((updateFirst p f l).map g).sum = (l.map g).sum := by
  intro l
  induction l with
  | nil => rfl
  | cons x xs ih =>
    by_cases hp : p x
    · simp [updateFirst, hp, hf x hp]
    · have hp0 : p x = false := by simpa using hp
      simp [updateFirst, hp0, ih]

theorem sum_map_updateFirst_add (g : α → Nat) (p : α → Bool) (f : α → α)
    (hf : ∀ x, p x = true → g (f x) = g x + 1) :
    ∀ l : List α,
      ((updateFirst p f l).map g).sum = (l.map g).sum + b2n (l.any p) := by
  intro l
  induction l with
  | nil => simp [updateFirst]
  | cons x xs ih =>
    by_cases hp : p x
    · simp [updateFirst, hp, hf x hp]; omega
    · have hp0 : p x = false := by simpa using hp
      simp only [updateFirst, hp0, Bool.false_eq_true, if_false,
        List.map_cons, List.sum_cons, ih, List.any_cons, hp0, Bool.false_or]
      omega

theorem b2n_eq_zero (b : Bool) : b2n b = 0 ↔ b = false := by
  cases b <;> simp

/-! ## Counting facts about single-list task operations -/

theorem countIn_cons (i : String) (t : Task) (l : List Task) :
    countIn i (t :: l) = countIn i l + b2n (t.id == i) := by
  simp [countIn, List.countP_cons, b2n]

theorem hasTask_false_iff (i : String) (l : List Task) :
    hasTask i l = false ↔ countIn i l = 0 := by
  induction l with
  | nil => simp [hasTask, countIn]
  | cons t ts ih =>
    simp only [hasTask, List.any_cons, Bool.or_eq_false_iff, countIn_cons]
    constructor
    · intro h
      have h1 : countIn i ts = 0 := ih.mp h.2
      simp [h1, h.1]
    · intro h
      have h1 : countIn i ts = 0 ∧ b2n (t.id == i) = 0 := by omega
      exact ⟨(b2n_eq_zero _).mp h1.2, ih.mpr h1.1⟩

theorem removeFirstTask_not_found (tid : String) :
    ∀ l : List Task, hasTask tid l = false → removeFirstTask tid l = (l, none) := by
  intro l
  induction l with
  | nil => intro _; rfl
  | cons t ts ih =>
    intro h
    simp only [hasTask, List.any_cons, Bool.or_eq_false_iff] at h
    simp [removeFirstTask, h.1, ih h.2]

theorem removeFirstTask_count_ne (tid j : String) (hj : ¬ j = tid) :
    ∀ l : List Task, countIn j (removeFirstTask tid l).1 = countIn j l := by
  intro l
  induction l with
  | nil => rfl
  | cons t ts ih =>
    by_cases h : t.id == tid
    · have hid : t.id = tid := by simpa using h
      have hfalse : (t.id == j) = false := by
        simp [hid]
        exact fun hh => hj hh.symm
      simp [removeFirstTask, h, countIn_cons, hfalse]
    · have h0 : (t.id == tid) = false := by simpa using h
      simp [removeFirstTask, h0, countIn_cons, ih]

theorem removeFirstTask_count_self (tid : String) :
    ∀ l : List Task,
      countIn tid (removeFirstTask tid l).1 + b2n (hasTask tid l)
        = countIn tid l := by
  intro l
  induction l with
  | nil => rfl
  | cons t ts ih =>
    by_cases h : t.id == tid
    · simp [removeFirstTask, h, countIn_cons, hasTask, List.any_cons]
    · have h0 : (t.id == tid) = false := by simpa using h
      simp only [removeFirstTask, h0, Bool.false_eq_true, if_false,
        countIn_cons, hasTask, List.any_cons, Bool.false_or]
      have := ih
      simp only [hasTask] at this
      omega

theorem removeFirstTask_found_none (tid : String) :
    ∀ l : List Task,
      ((removeFirstTask tid l).2 = none ↔ hasTask tid l = false) := by
  intro l
  induction l with
  | nil => simp [removeFirstTask, hasTask]
  | cons t ts ih =>
    by_cases h : t.id == tid
    · simp [removeFirstTask, h, hasTask, List.any_cons]
    · have h0 : (t.id == tid) = false := by simpa using h
      simp [removeFirstTask, h0, hasTask, List.any_cons, ih]

theorem removeFirstTask_found_id (tid : String) :
    ∀ (l : List Task) (t : Task),
      (removeFirstTask tid l).2 = some t → t.id = tid := by
  intro l
  induction l with
  | nil => intro t h; simp [removeFirstTask] at h
  | cons u ts ih =>
    intro t h
    by_cases hu : u.id == tid
    · simp [removeFirstTask, hu] at h
      subst h
      simpa using hu
    · have h0 : (u.id == tid) = false := by simpa using hu
      simp [removeFirstTask, h0] at h
      exact ih t h

/-! ## Facts about `keepLatest` -/

theorem keepLatest_none_iff (a b : Option Task) :
    keepLatest a b = none ↔ a = none ∧ b = none := by
  cases b <;> simp [keepLatest]

/-! ## Unfolding equations for the matched-list counters -/

theorem matchedPhases_cons (tid : String) (ph : Phase) (rest : List Phase) :
    matchedPhases tid (ph :: rest)
      = b2n (hasTask tid ph.tasks) + matchedPhases tid rest := by
  simp [matchedPhases]

theorem matchedProjects_cons (tid : String) (p : Project) (rest : List Project) :
    matchedProjects tid (p :: rest)
      = b2n (hasTask tid p.tasks) + matchedPhases tid p.phases
        + matchedProjects tid rest := by
  simp [matchedProjects]

theorem matchedAreas_cons (tid : String) (a : Area) (rest : List Area) :
    matchedAreas tid (a :: rest)
      = b2n (hasTask tid a.tasks) + matchedProjects tid a.projects
        + matchedAreas tid rest := by
  simp [matchedAreas]

/-! ## Lemmas about the removal pass of `moveTask` -/

theorem removeFromPhases_count_ne (tid j : String) (hj : ¬ j = tid) :
    ∀ (phs : List Phase) (acc : Option Task),
      (((removeFromPhases tid phs acc).1).map (phaseCount j)).sum
        = (phs.map (phaseCount j)).sum := by
  intro phs
  induction phs with
  | nil => intro acc; rfl
  | cons ph rest ih =>
    intro acc
    simp only [removeFromPhases, List.map_cons, List.sum_cons, ih]
    simp [phaseCount, removeFirstTask_count_ne tid j hj]

theorem removeFromPhases_count_self (tid : String) :
    ∀ (phs : List Phase) (acc : Option Task),
      (((removeFromPhases tid phs acc).1).map (phaseCount tid)).sum
          + matchedPhases tid phs
        = (phs.map (phaseCount tid)).sum := by
  intro phs
  induction phs with
  | nil => intro acc; rfl
  | cons ph rest ih =>
    intro acc
    simp only [removeFromPhases, List.map_cons, List.sum_cons,
      matchedPhases_cons]
    have h1 := removeFirstTask_count_self tid ph.tasks
    have h2 := ih (keepLatest acc (removeFirstTask tid ph.tasks).2)
    simp only [phaseCount]
    omega

theorem removeFromPhases_snd_none (tid : String) :
    ∀ (phs : List Phase) (acc : Option Task),
      ((removeFromPhases tid phs acc).2 = none
        ↔ acc = none ∧ matchedPhases tid phs = 0) := by
  intro phs
  induction phs with
  | nil => intro acc; simp [removeFromPhases, matchedPhases]
  | cons ph rest ih =>
    intro acc
    simp only [removeFromPhases, matchedPhases_cons]
    rw [ih, keepLatest_none_iff, removeFirstTask_found_none]
    have hb := b2n_eq_zero (hasTask tid ph.tasks)
    constructor
    · intro h
      have h1 := h.1.1
      have h2 := hb.mpr h.1.2
      have h3 := h.2
      exact ⟨h1, by omega⟩
    · intro h
      have h2 : b2n (hasTask tid ph.tasks) = 0 ∧ matchedPhases tid rest = 0 := by
        omega
      exact ⟨⟨h.1, hb.mp h2.1⟩, h2.2⟩

theorem removeFromPhases_snd_id (tid : String) :
    ∀ (phs : List Phase) (acc : Option Task),
      (∀ t, acc = some t → t.id = tid) →
      ∀ t, (removeFromPhases tid phs acc).2 = some t → t.id = tid := by
  intro phs
  induction phs with
  | nil => intro acc hacc t h; exact hacc t h
  | cons ph rest ih =>
    intro acc hacc t h
    simp only [removeFromPhases] at h
    refine ih _ ?_ t h
    intro u hu
    cases hr : (removeFirstTask tid ph.tasks).2 with
    | none => rw [hr] at hu; exact hacc u hu
    | some v =>
      rw [hr] at hu
      simp [keepLatest] at hu
      subst hu
      exact removeFirstTask_found_id tid ph.tasks v hr

theorem removeFromPhases_ids (tid : String) :
    ∀ (phs : List Phase) (acc : Option Task),
      ((removeFromPhases tid phs acc).1).map Phase.id = phs.map Phase.id := by
  intro phs
  induction phs with
  | nil => intro acc; rfl
  | cons ph rest ih =>
    intro acc
    simp [removeFromPhases, ih]

theorem removeFromProjects_count_ne (tid j : String) (hj : ¬ j = tid) :
    ∀ (ps : List Project) (acc : Option Task),
      (((removeFromProjects tid ps acc).1).map (projectCount j)).sum
        = (ps.map (projectCount j)).sum := by
  intro ps
  induction ps with
  | nil => intro acc; rfl
  | cons p rest ih =>
    intro acc
    simp only [removeFromProjects, List.map_cons, List.sum_cons, ih]
    simp [projectCount, removeFirstTask_count_ne tid j hj,
      removeFromPhases_count_ne tid j hj]

theorem removeFromProjects_count_self (tid : String) :
    ∀ (ps : List Project) (acc : Option Task),
      (((removeFromProjects tid ps acc).1).map (projectCount tid)).sum
          + matchedProjects tid ps
        = (ps.map (projectCount tid)).sum := by
  intro ps
  induction ps with
  | nil => intro acc; rfl
  | cons p rest ih =>
    intro acc
    simp only [removeFromProjects, List.map_cons, List.sum_cons,
      matchedProjects_cons, projectCount]
    have h1 := removeFirstTask_count_self tid p.tasks
    have h2 := removeFromPhases_count_self tid p.phases
      (keepLatest acc (removeFirstTask tid p.tasks).2)
    have h3 := ih (removeFromPhases tid p.phases
      (keepLatest acc (removeFirstTask tid p.tasks).2)).2
    omega

theorem removeFromProjects_snd_none (tid : String) :
    ∀ (ps : List Project) (acc : Option Task),
      ((removeFromProjects tid ps acc).2 = none
        ↔ acc = none ∧ matchedProjects tid ps = 0) := by
  intro ps
  induction ps with
  | nil => intro acc; simp [removeFromProjects, matchedProjects]
  | cons p rest ih =>
    intro acc
    simp only [removeFromProjects, matchedProjects_cons]
    rw [ih, removeFromPhases_snd_none, keepLatest_none_iff,
      removeFirstTask_found_none]
    have hb := b2n_eq_zero (hasTask tid p.tasks)
    constructor
    · intro h
      have h1 := hb.mpr h.1.1.2
      have h2 := h.1.2
      have h3 := h.2
      exact ⟨h.1.1.1, by omega⟩
    · intro h
      have h2 : b2n (hasTask tid p.tasks) = 0 ∧ matchedPhases tid p.phases = 0
          ∧ matchedProjects tid rest = 0 := by omega
      exact ⟨⟨⟨h.1, hb.mp h2.1⟩, h2.2.1⟩, h2.2.2⟩

theorem removeFromProjects_snd_id (tid : String) :
    ∀ (ps : List Project) (acc : Option Task),
      (∀ t, acc = some t → t.id = tid) →
      ∀ t, (removeFromProjects tid ps acc).2 = some t → t.id = tid := by
  intro ps
  induction ps with
  | nil => intro acc hacc t h; exact hacc t h
  | cons p rest ih =>
    intro acc hacc t h
    simp only [removeFromProjects] at h
    refine ih _ ?_ t h
    refine removeFromPhases_snd_id tid p.phases _ ?_
    intro u hu
    cases hr : (removeFirstTask tid p.tasks).2 with
    | none => rw [hr] at hu; exact hacc u hu
    | some v =>
      rw [hr] at hu
      simp [keepLatest] at hu
      subst hu
      exact removeFirstTask_found_id tid p.tasks v hr

theorem removeFromProjects_skel (tid : String) :
    ∀ (ps : List Project) (acc : Option Task),
      ((removeFromProjects tid ps acc).1).map
          (fun p => (p.id, p.phases.map Phase.id))
        = ps.map fun p => (p.id, p.phases.map Phase.id) := by
  intro ps
  induction ps with
  | nil => intro acc; rfl
  | cons p rest ih =>
    intro acc
    simp [removeFromProjects, ih, removeFromPhases_ids]

theorem removeFromAreas_count_ne (tid j : String) (hj : ¬ j = tid) :
    ∀ (as : List Area) (acc : Option Task),
      (((removeFromAreas tid as acc).1).map (areaCount j)).sum
        = (as.map (areaCount j)).sum := by
  intro as
  induction as with
  | nil => intro acc; rfl
  | cons a rest ih =>
    intro acc
    simp only [removeFromAreas, List.map_cons, List.sum_cons, ih]
    simp [areaCount, removeFirstTask_count_ne tid j hj,
      removeFromProjects_count_ne tid j hj]

theorem removeFromAreas_count_self (tid : String) :
    ∀ (as : List Area) (acc : Option Task),
      (((removeFromAreas tid as acc).1).map (areaCount tid)).sum
          + matchedAreas tid as
        = (as.map (areaCount tid)).sum := by
  intro as
  induction as with
  | nil => intro acc; rfl
  | cons a rest ih =>
    intro acc
    simp only [removeFromAreas, List.map_cons, List.sum_cons,
      matchedAreas_cons, areaCount]
    have h1 := removeFirstTask_count_self tid a.tasks
    have h2 := removeFromProjects_count_self tid a.projects
      (keepLatest acc (removeFirstTask tid a.tasks).2)
    have h3 := ih (removeFromProjects tid a.projects
      (keepLatest acc (removeFirstTask tid a.tasks).2)).2
    omega

theorem removeFromAreas_snd_none (tid : String) :
    ∀ (as : List Area) (acc : Option Task),
      ((removeFromAreas tid as acc).2 = none
        ↔ acc = none ∧ matchedAreas tid as = 0) := by
  intro as
  induction as with
  | nil => intro acc; simp [removeFromAreas, matchedAreas]
  | cons a rest ih =>
    intro acc
    simp only [removeFromAreas, matchedAreas_cons]
    rw [ih, removeFromProjects_snd_none, keepLatest_none_iff,
      removeFirstTask_found_none]
    have hb := b2n_eq_zero (hasTask tid a.tasks)
    constructor
    · intro h
      have h1 := hb.mpr h.1.1.2
      have h2 := h.1.2
      have h3 := h.2
      exact ⟨h.1.1.1, by omega⟩
    · intro h
      have h2 : b2n (hasTask tid a.tasks) = 0 ∧ matchedProjects tid a.projects = 0
          ∧ matchedAreas tid rest = 0 := by omega
      exact ⟨⟨⟨h.1, hb.mp h2.1⟩, h2.2.1⟩, h2.2.2⟩

theorem removeFromAreas_snd_id (tid : String) :
    ∀ (as : List Area) (acc : Option Task),
      (∀ t, acc = some t → t.id = tid) →
      ∀ t, (removeFromAreas tid as acc).2 = some t → t.id = tid := by
  intro as
  induction as with
  | nil => intro acc hacc t h; exact hacc t h
  | cons a rest ih =>
    intro acc hacc t h
    simp only [removeFromAreas] at h
    refine ih _ ?_ t h
    refine removeFromProjects_snd_id tid a.projects _ ?_
    intro u hu
    cases hr : (removeFirstTask tid a.tasks).2 with
    | none => rw [hr] at hu; exact hacc u hu
    | some v =>
      rw [hr] at hu
      simp [keepLatest] at hu
      subst hu
      exact removeFirstTask_found_id tid a.tasks v hr

theorem removeFromAreas_skel (tid : String) :
    ∀ (as : List Area) (acc : Option Task),
      ((removeFromAreas tid as acc).1).map skelArea = as.map skelArea := by
  intro as
  induction as with
  | nil => intro acc; rfl
  | cons a rest ih =>
    intro acc
    simp [removeFromAreas, ih, skelArea, removeFromProjects_skel]

/-! ## Top-level facts about `removeTaskEverywhere` -/

theorem removeTaskEverywhere_count_ne (tid j : String) (hj : ¬ j = tid)
    (d : LifeOSData) :
    taskCount j (removeTaskEverywhere tid d).1 = taskCount j d := by
  simp only [removeTaskEverywhere, taskCount]
  simp [removeFirstTask_count_ne tid j hj, removeFromAreas_count_ne tid j hj]

theorem removeTaskEverywhere_count_self (tid : String) (d : LifeOSData) :
    taskCount tid (removeTaskEverywhere tid d).1 + matchedDoc tid d
      = taskCount tid d := by
  simp only [removeTaskEverywhere, taskCount, matchedDoc]
  have h1 := removeFirstTask_count_self tid d.inbox
  have h2 := removeFromAreas_count_self tid d.areas
    (removeFirstTask tid d.inbox).2
  omega

theorem removeTaskEverywhere_snd_none (tid : String) (d : LifeOSData) :
    (removeTaskEverywhere tid d).2 = none ↔ matchedDoc tid d = 0 := by
  simp only [removeTaskEverywhere, matchedDoc]
  rw [removeFromAreas_snd_none, removeFirstTask_found_none]
  have hb := b2n_eq_zero (hasTask tid d.inbox)
  constructor
  · intro h
    have h1 := hb.mpr h.1
    omega
  · intro h
    have h2 : b2n (hasTask tid d.inbox) = 0 ∧ matchedAreas tid d.areas = 0 := by
      omega
    exact ⟨hb.mp h2.1, h2.2⟩

theorem removeTaskEverywhere_snd_id (tid : String) (d : LifeOSData) :
    ∀ t, (removeTaskEverywhere tid d).2 = some t → t.id = tid := by
  intro t h
  simp only [removeTaskEverywhere] at h
  refine removeFromAreas_snd_id tid d.areas _ ?_ t h
  intro u hu
  exact removeFirstTask_found_id tid d.inbox u hu

theorem removeTaskEverywhere_skel (tid : String) (d : LifeOSData) :
    skel (removeTaskEverywhere tid d).1 = skel d := by
  simp [removeTaskEverywhere, skel, removeFromAreas_skel]

theorem any_map_eq (f : α → β) (p : β → Bool) :
    ∀ l : List α, (l.map f).any p = l.any fun x => p (f x) := by
  intro l
  induction l with
  | nil => rfl
  | cons x xs ih => simp [List.any_cons, ih]

theorem countP_map_eq (f : α → β) (p : β → Bool) (l : List α) :
    (l.map f).countP p = l.countP fun x => p (f x) := by
  rw [List.countP_map]; rfl

/-! ## The container-id skeleton determines target existence and
container-id uniqueness -/

theorem targetExists_of_skel (tt : MoveTarget) (targid : Option String)
    (d1 d2 : LifeOSData) (h : skel d1 = skel d2) :
    targetExists tt targid d1 = targetExists tt targid d2 := by
  have hArea : ∀ i : String,
      (d1.areas.any fun a => a.id == i) = (d2.areas.any fun a => a.id == i) := by
    intro i
    have e1 : (d1.areas.any fun a => a.id == i)
        = (skel d1).any fun x => x.1 == i := by
      simp [skel, any_map_eq, skelArea]
    have e2 : (d2.areas.any fun a => a.id == i)
        = (skel d2).any fun x => x.1 == i := by
      simp [skel, any_map_eq, skelArea]
    rw [e1, e2, h]
  have hProj : ∀ i : String,
      (d1.areas.any fun a => a.projects.any fun p => p.id == i)
        = (d2.areas.any fun a => a.projects.any fun p => p.id == i) := by
    intro i
    have e : ∀ d : LifeOSData,
        (d.areas.any fun a => a.projects.any fun p => p.id == i)
          = (skel d).any fun x => x.2.any fun y => y.1 == i := by
      intro d
      simp [skel, any_map_eq, skelArea]
    rw [e d1, e d2, h]
  have hPhase : ∀ i : String,
      (d1.areas.any fun a => a.projects.any fun p => p.phases.any fun ph => ph.id == i)
        = (d2.areas.any fun a => a.projects.any fun p => p.phases.any fun ph => ph.id == i) := by
    intro i
    have e : ∀ d : LifeOSData,
        (d.areas.any fun a => a.projects.any fun p => p.phases.any fun ph => ph.id == i)
          = (skel d).any fun x => x.2.any fun y => y.2.any fun z => z == i := by
      intro d
      simp [skel, any_map_eq, skelArea]
    rw [e d1, e d2, h]
  cases tt with
  | inbox => cases hs : strTruthy targid <;> simp [targetExists, hs]
  | area =>
    cases hs : strTruthy targid with
    | none => simp [targetExists, hs]
    | some i => simp [targetExists, hs, hArea i]
  | project =>
    cases hs : strTruthy targid with
    | none => simp [targetExists, hs]
    | some i => simp [targetExists, hs, hProj i]
  | phase =>
    cases hs : strTruthy targid with
    | none => simp [targetExists, hs]
    | some i => simp [targetExists, hs, hPhase i]

theorem projIdCount_of_skel (i : String) (d1 d2 : LifeOSData)
    (h : skel d1 = skel d2) : projIdCount i d1 = projIdCount i d2 := by
  have e : ∀ d : LifeOSData,
      projIdCount i d
        = ((skel d).map fun x => x.2.countP fun y => y.1 == i).sum := by
    intro d
    simp only [projIdCount, skel, List.map_map]
    refine sum_map_congr _ _ _ ?_
    intro a _
    have hc := countP_map_eq (fun p : Project => (p.id, p.phases.map Phase.id))
      (fun y => y.1 == i) a.projects
    simpa [Function.comp, skelArea] using hc.symm
  rw [e d1, e d2, h]

theorem phaseIdCount_of_skel (i : String) (d1 d2 : LifeOSData)
    (h : skel d1 = skel d2) : phaseIdCount i d1 = phaseIdCount i d2 := by
  have e : ∀ d : LifeOSData,
      phaseIdCount i d
        = ((skel d).map fun x =>
            (x.2.map fun y => y.2.countP fun z => z == i).sum).sum := by
    intro d
    simp only [phaseIdCount, skel, List.map_map]
    refine sum_map_congr _ _ _ ?_
    intro a _
    simp only [Function.comp, skelArea, List.map_map]
    refine sum_map_congr _ _ _ ?_
    intro p _
    have hc := countP_map_eq Phase.id (fun z => z == i) p.phases
    simpa using hc.symm
  rw [e d1, e d2, h]

/-! ## Counting facts about the insertion pass of `moveTask` -/

theorem insertTask_count_ne (t : Task) (tt : MoveTarget)
    (targid : Option String) (j : String) (hj : ¬ j = t.id) (d : LifeOSData) :
    taskCount j (insertTask t tt targid d) = taskCount j d := by
  have hb : (t.id == j) = false := by
    simp
    exact fun hh => hj hh.symm
  cases tt with
  | inbox =>
    simp [insertTask, taskCount, countIn_cons, hb]
  | area =>
    cases hs : strTruthy targid with
    | none => simp [insertTask, hs]
    | some i =>
      simp only [insertTask, hs, taskCount]
      rw [sum_map_updateFirst_eq]
      intro a _
      simp [areaCount, countIn_cons, hb]
  | project =>
    cases hs : strTruthy targid with
    | none => simp [insertTask, hs]
    | some i =>
      simp only [insertTask, hs, taskCount, List.map_map]
      congr 1
      refine sum_map_congr _ _ _ ?_
      intro a _
      simp only [Function.comp, areaCount]
      congr 1
      rw [sum_map_updateFirst_eq]
      intro p _
      simp [projectCount, countIn_cons, hb]
  | phase =>
    cases hs : strTruthy targid with
    | none => simp [insertTask, hs]
    | some i =>
      simp only [insertTask, hs, taskCount, List.map_map]
      congr 1
      refine sum_map_congr _ _ _ ?_
      intro a _
      simp only [Function.comp, areaCount, List.map_map]
      congr 1
      refine sum_map_congr _ _ _ ?_
      intro p _
      simp only [Function.comp, projectCount]
      congr 1
      rw [sum_map_updateFirst_eq]
      intro ph _
      simp [phaseCount, countIn_cons, hb]

theorem insertTask_count_self (t : Task) (tt : MoveTarget)
    (targid : Option String) (d : LifeOSData)
    (hp : UniqueProjIds d) (hph : UniquePhaseIds d) :
    taskCount t.id (insertTask t tt targid d)
      = taskCount t.id d + b2n (targetExists tt targid d) := by
  cases tt with
  | inbox =>
    cases hs : strTruthy targid <;>
      simp [insertTask, targetExists, hs, taskCount, countIn_cons] <;> omega
  | area =>
    cases hs : strTruthy targid with
    | none => simp [insertTask, targetExists, hs]
    | some i =>
      simp only [insertTask, hs, targetExists, taskCount]
      rw [sum_map_updateFirst_add]
      · omega
      · intro a _
        simp [areaCount, countIn_cons]
        omega
  | project =>
    cases hs : strTruthy targid with
    | none => simp [insertTask, targetExists, hs]
    | some i =>
      simp only [insertTask, hs, targetExists, taskCount, List.map_map]
      have hpoint : ∀ a : Area,
          areaCount t.id
              { a with projects :=
                  (updateFirst (fun p => p.id == i)
                    (fun p => { p with tasks := t :: p.tasks }) a.projects) }
            = areaCount t.id a + b2n (a.projects.any fun p => p.id == i) := by
        intro a
        simp only [areaCount]
        rw [sum_map_updateFirst_add]
        · omega
        · intro p _
          simp [projectCount, countIn_cons]
          omega
      have hrw : (d.areas.map fun a =>
          areaCount t.id
            { a with projects :=
                (updateFirst (fun p => p.id == i)
                  (fun p => { p with tasks := t :: p.tasks }) a.projects) }).sum
          = (d.areas.map (areaCount t.id)).sum
            + (d.areas.map fun a =>
                b2n (a.projects.any fun p => p.id == i)).sum := by
        rw [sum_map_congr _ (fun a => areaCount t.id a
            + b2n (a.projects.any fun p => p.id == i)) _
          fun a _ => hpoint a]
        exact sum_map_add _ _ _
      have hcollapse : (d.areas.map fun a =>
            b2n (a.projects.any fun p => p.id == i)).sum
          = b2n (d.areas.any fun a => a.projects.any fun p => p.id == i) := by
        refine sum_b2n_eq_b2n_any _ (fun a => a.projects.countP fun p => p.id == i)
          (fun a => b2n_any_le_countP _ _) _ ?_
        exact hp i
      simp only [Function.comp_def]
      rw [hrw, hcollapse]
      omega
  | phase =>
    cases hs : strTruthy targid with
    | none => simp [insertTask, targetExists, hs]
    | some i =>
      simp only [insertTask, hs, targetExists, taskCount, List.map_map]
      have hproj : ∀ p : Project,
          projectCount t.id
              { p with phases :=
                  (updateFirst (fun ph => ph.id == i)
                    (fun ph => { ph with tasks := t :: ph.tasks }) p.phases) }
            = projectCount t.id p + b2n (p.phases.any fun ph => ph.id == i) := by
        intro p
        simp only [projectCount]
        rw [sum_map_updateFirst_add]
        · omega
        · intro ph _
          simp [phaseCount, countIn_cons]
      have hpoint : ∀ a : Area,
          areaCount t.id
              { a with projects := a.projects.map fun p =>
                  { p with phases :=
                      (updateFirst (fun ph => ph.id == i)
                        (fun ph => { ph with tasks := t :: ph.tasks })
                        p.phases) } }
            = areaCount t.id a
              + (a.projects.map fun p =>
                  b2n (p.phases.any fun ph => ph.id == i)).sum := by
        intro a
        simp only [areaCount, List.map_map]
        have := sum_map_congr
          ((projectCount t.id) ∘ fun p : Project =>
            { p with phases :=
                (updateFirst (fun ph => ph.id == i)
                  (fun ph => { ph with tasks := t :: ph.tasks }) p.phases) })
          (fun p : Project => projectCount t.id p
            + b2n (p.phases.any fun ph => ph.id == i))
          a.projects (fun p _ => hproj p)
        rw [this, sum_map_add]
        omega
      have hrw : (d.areas.map fun a =>
          areaCount t.id
            { a with projects := a.projects.map fun p =>
                { p with phases :=
                    (updateFirst (fun ph => ph.id == i)
                      (fun ph => { ph with tasks := t :: ph.tasks })
                      p.phases) } }).sum
          = (d.areas.map (areaCount t.id)).sum
            + (d.areas.map fun a =>
                (a.projects.map fun p =>
                  b2n (p.phases.any fun ph => ph.id == i)).sum).sum := by
        rw [sum_map_congr _ (fun a => areaCount t.id a
            + (a.projects.map fun p =>
                b2n (p.phases.any fun ph => ph.id == i)).sum) _
          fun a _ => hpoint a]
        exact sum_map_add _ _ _
      have hinner : ∀ a ∈ d.areas,
          (a.projects.map fun p =>
            b2n (p.phases.any fun ph => ph.id == i)).sum
          = b2n (a.projects.any fun p => p.phases.any fun ph => ph.id == i) := by
        intro a ha
        refine sum_b2n_eq_b2n_any _
          (fun p => p.phases.countP fun ph => ph.id == i)
          (fun p => b2n_any_le_countP _ _) _ ?_
        have hmem : (a.projects.map fun p =>
              p.phases.countP fun ph => ph.id == i).sum
            ≤ (d.areas.map fun b => (b.projects.map fun p =>
                p.phases.countP fun ph => ph.id == i).sum).sum :=
          mem_map_le_sum (fun b : Area => (b.projects.map fun p =>
            p.phases.countP fun ph => ph.id == i).sum) d.areas a ha
        have htot := hph i
        simp only [phaseIdCount] at htot
        omega
      have hcollapse : (d.areas.map fun a =>
            (a.projects.map fun p =>
              b2n (p.phases.any fun ph => ph.id == i)).sum).sum
          = b2n (d.areas.any fun a =>
              a.projects.any fun p => p.phases.any fun ph => ph.id == i) := by
        rw [sum_map_congr _ (fun a =>
            b2n (a.projects.any fun p => p.phases.any fun ph => ph.id == i)) _
          hinner]
        refine sum_b2n_eq_b2n_any _
          (fun a => (a.projects.map fun p =>
            p.phases.countP fun ph => ph.id == i).sum) ?_ _ ?_
        · intro a
          calc b2n (a.projects.any fun p => p.phases.any fun ph => ph.id == i)
              ≤ a.projects.countP fun p => p.phases.any fun ph => ph.id == i :=
                b2n_any_le_countP _ _
            _ = (a.projects.map fun p =>
                  b2n (p.phases.any fun ph => ph.id == i)).sum :=
                countP_eq_sum_b2n _ _
            _ ≤ (a.projects.map fun p =>
                  p.phases.countP fun ph => ph.id == i).sum :=
                sum_map_le_sum_map _ _ _ fun p _ => b2n_any_le_countP _ _
        · have htot := hph i
          simp only [phaseIdCount] at htot
          exact htot
      simp only [Function.comp_def]
      rw [hrw, hcollapse]
      omega

/-! ## No matched list means no occurrence at all -/

theorem matchedPhases_zero_count (tid : String) (phs : List Phase)
    (h : matchedPhases tid phs = 0) : (phs.map (phaseCount tid)).sum = 0 := by
  simp only [matchedPhases] at h
  rw [sum_map_eq_zero_iff]
  intro ph hph
  have hb := (sum_map_eq_zero_iff _ phs).mp h ph hph
  have hfalse := (b2n_eq_zero _).mp hb
  have hc := (hasTask_false_iff tid ph.tasks).mp hfalse
  simpa [phaseCount] using hc

theorem matchedProjects_zero_count (tid : String) (ps : List Project)
    (h : matchedProjects tid ps = 0) : (ps.map (projectCount tid)).sum = 0 := by
  simp only [matchedProjects] at h
  rw [sum_map_eq_zero_iff]
  intro p hp
  have hb := (sum_map_eq_zero_iff _ ps).mp h p hp
  have h1 : b2n (hasTask tid p.tasks) = 0 ∧ matchedPhases tid p.phases = 0 := by
    omega
  have hc1 := (hasTask_false_iff tid p.tasks).mp ((b2n_eq_zero _).mp h1.1)
  have hc2 := matchedPhases_zero_count tid p.phases h1.2
  simp [projectCount, hc1, hc2]

theorem matchedAreas_zero_count (tid : String) (as : List Area)
    (h : matchedAreas tid as = 0) : (as.map (areaCount tid)).sum = 0 := by
  simp only [matchedAreas] at h
  rw [sum_map_eq_zero_iff]
  intro a ha
  have hb := (sum_map_eq_zero_iff _ as).mp h a ha
  have h1 : b2n (hasTask tid a.tasks) = 0 ∧ matchedProjects tid a.projects = 0 := by
    omega
  have hc1 := (hasTask_false_iff tid a.tasks).mp ((b2n_eq_zero _).mp h1.1)
  have hc2 := matchedProjects_zero_count tid a.projects h1.2
  simp [areaCount, hc1, hc2]

theorem matchedDoc_zero_count (tid : String) (d : LifeOSData)
    (h : matchedDoc tid d = 0) : taskCount tid d = 0 := by
  simp only [matchedDoc] at h
  have h1 : b2n (hasTask tid d.inbox) = 0 ∧ matchedAreas tid d.areas = 0 := by
    omega
  have hc1 := (hasTask_false_iff tid d.inbox).mp ((b2n_eq_zero _).mp h1.1)
  have hc2 := matchedAreas_zero_count tid d.areas h1.2
  simp [taskCount, hc1, hc2]

/-! ## One-location facts about sample documents -/

theorem oneLoc_exDocInboxOnly : OneLoc exDocInboxOnly := by
  intro i
  simp only [exDocInboxOnly, taskCount, countIn, areaCount,
    List.map_nil, List.sum_nil, List.countP_cons, List.countP_nil]
  split <;> simp

theorem uniqueProjIds_exDocInboxOnly : UniqueProjIds exDocInboxOnly := by
  intro i
  simp [projIdCount, exDocInboxOnly]

theorem uniquePhaseIds_exDocInboxOnly : UniquePhaseIds exDocInboxOnly := by
  intro i
  simp [phaseIdCount, exDocInboxOnly]

theorem find?_updateFirst (p : α → Bool) (f : α → α)
    (hf : ∀ x, p x = true → p (f x) = true) :
    ∀ l : List α, (updateFirst p f l).find? p = (l.find? p).map f := by
  intro l
  induction l with
  | nil => rfl
  | cons x xs ih =>
    by_cases hp : p x
    · simp [updateFirst, hp, List.find?_cons_of_pos, hf x hp]
    · have hp0 : p x = false := by simpa using hp
      simp [updateFirst, hp0, List.find?_cons_of_neg, ih]

/-! ## Counting facts about filtering a task id out of a list -/

theorem countIn_filter_self (tid : String) (l : List Task) :
    countIn tid (l.filter fun t => !(t.id == tid)) = 0 := by
  induction l with
  | nil => rfl
  | cons t ts ih =>
    by_cases h : t.id == tid
    · simp [List.filter_cons, h, ih]
    · have h0 : (t.id == tid) = false := by simpa using h
      simp [List.filter_cons, h0, countIn_cons, ih]

theorem countIn_filter_ne (tid j : String) (hj : ¬ j = tid) (l : List Task) :
    countIn j (l.filter fun t => !(t.id == tid)) = countIn j l := by
  induction l with
  | nil => rfl
  | cons t ts ih =>
    by_cases h : t.id == tid
    · have hid : t.id = tid := by simpa using h
      have hfalse : (t.id == j) = false := by
        simp [hid]
        exact fun hh => hj hh.symm
      simp [List.filter_cons, h, countIn_cons, hfalse, ih]
    · have h0 : (t.id == tid) = false := by simpa using h
      simp [List.filter_cons, h0, countIn_cons, ih]

/-! ## The first occurrence of a task id under `toggleTaskStatus` -/

theorem orO_map (f : Task → Task) (a b : Option Task) :
    orO (a.map f) (b.map f) = (orO a b).map f := by
  cases a <;> rfl

theorem firstMatch_toggleInList (tid : String) (l : List Task) :
    firstMatch tid (toggleInList tid l)
      = (firstMatch tid l).map toggleTask := by
  simp only [firstMatch, toggleInList]
  exact find?_updateFirst (fun t => t.id == tid) toggleTask (fun x hx => hx) l

theorem findInPhases_toggle (tid : String) :
    ∀ phs : List Phase,
      findInPhases tid
          (phs.map fun ph => { ph with tasks := toggleInList tid ph.tasks })
        = (findInPhases tid phs).map toggleTask := by
  intro phs
  induction phs with
  | nil => rfl
  | cons ph rest ih =>
    simp only [List.map_cons, findInPhases]
    rw [firstMatch_toggleInList, ih, orO_map]

theorem findInProjects_toggle (tid : String) :
    ∀ ps : List Project,
      findInProjects tid
          (ps.map fun p =>
            { p with
              tasks := toggleInList tid p.tasks
              phases := p.phases.map fun ph =>
                { ph with tasks := toggleInList tid ph.tasks } })
        = (findInProjects tid ps).map toggleTask := by
  intro ps
  induction ps with
  | nil => rfl
  | cons p rest ih =>
    simp only [List.map_cons, findInProjects]
    rw [firstMatch_toggleInList, findInPhases_toggle, ih, orO_map, orO_map]

theorem findInAreas_toggle (tid : String) :
    ∀ as : List Area,
      findInAreas tid
          (as.map fun a =>
            { a with
              tasks := toggleInList tid a.tasks
              projects := a.projects.map fun p =>
                { p with
                  tasks := toggleInList tid p.tasks
                  phases := p.phases.map fun ph =>
                    { ph with tasks := toggleInList tid ph.tasks } } })
        = (findInAreas tid as).map toggleTask := by
  intro as
  induction as with
  | nil => rfl
  | cons a rest ih =>
    simp only [List.map_cons, findInAreas]
    rw [firstMatch_toggleInList, findInProjects_toggle, ih, orO_map, orO_map]

theorem findTask_toggle (tid : String) (d : LifeOSData) :
    findTask tid (toggleTaskStatus tid d)
      = (findTask tid d).map toggleTask := by
  simp only [toggleTaskStatus, findTask]
  rw [firstMatch_toggleInList, findInAreas_toggle, orO_map]

/-- Regrouped occurrence count: inbox, then all direct area lists, then
all direct project lists, then all phase lists. -/
theorem taskCount_decomp (tid : String) (d : LifeOSData) :
    taskCount tid d
      = countIn tid d.inbox
        + (d.areas.map fun a => countIn tid a.tasks).sum
        + (d.areas.map fun a =>
            (a.projects.map fun p => countIn tid p.tasks).sum).sum
        + (d.areas.map fun a =>
            (a.projects.map fun p =>
              (p.phases.map fun ph => countIn tid ph.tasks).sum).sum).sum := by
  simp only [taskCount]
  rw [sum_map_congr (areaCount tid)
      (fun a => countIn tid a.tasks + (a.projects.map (projectCount tid)).sum)
      d.areas (fun a _ => rfl),
    sum_map_add]
  rw [sum_map_congr (fun a : Area => (a.projects.map (projectCount tid)).sum)
      (fun a => (a.projects.map fun p => countIn tid p.tasks).sum
        + (a.projects.map fun p =>
            (p.phases.map fun ph => countIn tid ph.tasks).sum).sum)
      d.areas (fun a _ => by
        show (a.projects.map (projectCount tid)).sum
          = (a.projects.map fun p => countIn tid p.tasks).sum
            + (a.projects.map fun p =>
                (p.phases.map fun ph => countIn tid ph.tasks).sum).sum
        rw [sum_map_congr (projectCount tid)
            (fun p => countIn tid p.tasks
              + (p.phases.map fun ph => countIn tid ph.tasks).sum)
            a.projects (fun p _ => rfl),
          sum_map_add]),
    sum_map_add]
  omega

/-! ## Idempotence building blocks for the normalizer -/

theorem jsOrStr_some_idem (o : Option String) (dflt : String) :
    jsOrStr (some (jsOrStr o dflt)) dflt = jsOrStr o dflt := by
  cases o with
  | none =>
    simp only [jsOrStr]
    by_cases hd : dflt = "" <;> simp [hd]
  | some s =>
    simp only [jsOrStr]
    by_cases hs : s = "" <;> by_cases hd : dflt = "" <;> simp [hs, hd]

theorem normalizeTask_idem (t : RawTask) :
    normalizeTask (normalizeTask t) = normalizeTask t := by
  simp [normalizeTask, jsOrStr_some_idem]

theorem normalizePhase_idem (ph : RawPhase) :
    normalizePhase (normalizePhase ph) = normalizePhase ph := by
  simp [normalizePhase, jsOrStr_some_idem,
    map_map_eq_map normalizeTask normalizeTask normalizeTask_idem]

theorem normalizeProject_idem (p : RawProject) :
    normalizeProject (normalizeProject p) = normalizeProject p := by
  simp [normalizeProject, jsOrStr_some_idem,
    map_map_eq_map normalizeTask normalizeTask normalizeTask_idem,
    map_map_eq_map normalizePhase normalizePhase normalizePhase_idem]

theorem normalizeArea_idem (a : RawArea) :
    normalizeArea (normalizeArea a) = normalizeArea a := by
  simp [normalizeArea, jsOrStr_some_idem,
    map_map_eq_map normalizeTask normalizeTask normalizeTask_idem,
    map_map_eq_map normalizeProject normalizeProject normalizeProject_idem]

/-! ## Debounce trace facts -/

theorem onChange_cacheWrites (u : Bool) (doc : RawDoc) (s : DebounceState) :
    (onChange u doc s).cacheWrites = s.cacheWrites ++ [doc] := by
  cases u <;> simp [onChange]

theorem onChange_remoteWrites (u : Bool) (doc : RawDoc) (s : DebounceState) :
    (onChange u doc s).remoteWrites = s.remoteWrites := by
  cases u <;> simp [onChange]

theorem onChange_pending_true (doc : RawDoc) (s : DebounceState) :
    (onChange true doc s).pending = some doc := by
  simp [onChange]

theorem runEdits_cacheWrites (u : Bool) :
    ∀ (docs : List RawDoc) (s : DebounceState),
      (runEdits u docs s).cacheWrites = s.cacheWrites ++ docs := by
  intro docs
  induction docs with
  | nil => intro s; simp [runEdits]
  | cons x xs ih =>
    intro s
    show (runEdits u xs (onChange u x s)).cacheWrites = _
    rw [ih, onChange_cacheWrites]
    simp

theorem runEdits_remoteWrites (u : Bool) :
    ∀ (docs : List RawDoc) (s : DebounceState),
      (runEdits u docs s).remoteWrites = s.remoteWrites := by
  intro docs
  induction docs with
  | nil => intro s; simp [runEdits]
  | cons x xs ih =>
    intro s
    show (runEdits u xs (onChange u x s)).remoteWrites = _
    rw [ih, onChange_remoteWrites]

theorem runEdits_pending_last (ds : List RawDoc) (d : RawDoc)
    (s : DebounceState) :
    (runEdits true (ds ++ [d]) s).pending = some d := by
  simp only [runEdits, List.foldl_append, List.foldl_cons, List.foldl_nil]
  exact onChange_pending_true d _

/-! ## Claim theorems -/

/-- C1 (counterexample): the claim asserts that after any `moveTask` call —
including one whose `targetId` matches no existing container — the moved
task is still present in exactly one container.  On the concrete document
whose only task `t1` sits in the inbox (which satisfies the one-location
invariant and initially holds one occurrence of `t1`),
`moveTask("t1", area, "nope")` removes the task and, finding no area
`"nope"`, never re-inserts it: the result holds zero occurrences. -/
theorem C1_moveTask_counterexample :
    OneLoc exDocInboxOnly ∧ taskCount "t1" exDocInboxOnly = 1 ∧
      taskCount "t1"
        (moveTask "t1" MoveTarget.area (some "nope") exDocInboxOnly) = 0 :=
  ⟨oneLoc_exDocInboxOnly, by decide, by decide⟩

/-- C1 (amended): on every document satisfying the one-location invariant
whose project ids and phase ids are globally unique, `moveTask` preserves
the one-location invariant; when the moved task id occurred exactly once,
the result holds exactly one occurrence if the named target container
exists and zero occurrences (the task is silently dropped) if it does
not. -/
theorem C1_moveTask_oneLocation (d : LifeOSData) (tid : String)
    (tt : MoveTarget) (targid : Option String)
    (h1 : OneLoc d) (h2 : UniqueProjIds d) (h3 : UniquePhaseIds d) :
    OneLoc (moveTask tid tt targid d) ∧
    (taskCount tid d = 1 →
      taskCount tid (moveTask tid tt targid d)
        = b2n (targetExists tt targid d)) := by
  cases hr : (removeTaskEverywhere tid d).2 with
  | none =>
    have hmove : moveTask tid tt targid d = d := by
      simp [moveTask, hr]
    constructor
    · rw [hmove]; exact h1
    · intro hcnt
      exfalso
      have hm : matchedDoc tid d = 0 :=
        (removeTaskEverywhere_snd_none tid d).mp hr
      have := matchedDoc_zero_count tid d hm
      omega
  | some t =>
    have htid : t.id = tid := removeTaskEverywhere_snd_id tid d t hr
    have hmove : moveTask tid tt targid d
        = insertTask t tt targid (removeTaskEverywhere tid d).1 := by
      simp [moveTask, hr]
    have hskel : skel (removeTaskEverywhere tid d).1 = skel d :=
      removeTaskEverywhere_skel tid d
    have hp1 : UniqueProjIds (removeTaskEverywhere tid d).1 := by
      intro i
      rw [show projIdCount i (removeTaskEverywhere tid d).1 = projIdCount i d
        from projIdCount_of_skel i _ d hskel]
      exact h2 i
    have hp2 : UniquePhaseIds (removeTaskEverywhere tid d).1 := by
      intro i
      rw [show phaseIdCount i (removeTaskEverywhere tid d).1 = phaseIdCount i d
        from phaseIdCount_of_skel i _ d hskel]
      exact h3 i
    have hmatched : 1 ≤ matchedDoc tid d := by
      by_contra hc
      have h0 : matchedDoc tid d = 0 := by omega
      have hn := (removeTaskEverywhere_snd_none tid d).mpr h0
      rw [hr] at hn
      exact Option.noConfusion hn
    have hself := removeTaskEverywhere_count_self tid d
    have hd_le := h1 tid
    have hzero : taskCount tid (removeTaskEverywhere tid d).1 = 0 := by omega
    have htarget : targetExists tt targid (removeTaskEverywhere tid d).1
        = targetExists tt targid d :=
      targetExists_of_skel tt targid _ d hskel
    constructor
    · intro i
      by_cases hi : i = tid
      · rw [hi]
        rw [hmove]
        have hins := insertTask_count_self t tt targid
          (removeTaskEverywhere tid d).1 hp1 hp2
        rw [htid] at hins
        rw [hins, hzero]
        simpa using b2n_le_one _
      · rw [hmove]
        have hne := insertTask_count_ne t tt targid i
          (by rw [htid]; exact hi) (removeTaskEverywhere tid d).1
        rw [hne, removeTaskEverywhere_count_ne tid i hi d]
        exact h1 i
    · intro hcnt
      rw [hmove]
      have hins := insertTask_count_self t tt targid
        (removeTaskEverywhere tid d).1 hp1 hp2
      rw [htid] at hins
      rw [hins, hzero, htarget]
      omega

/-- C1 (witness): the amended theorem applied to the one-inbox-task
document, moving `t1` to the (always existing) inbox: exactly one
occurrence remains. -/
theorem C1_moveTask_oneLocation_witness :
    taskCount "t1" (moveTask "t1" MoveTarget.inbox none exDocInboxOnly) = 1 := by
  have h := C1_moveTask_oneLocation exDocInboxOnly "t1" MoveTarget.inbox none
    oneLoc_exDocInboxOnly uniqueProjIds_exDocInboxOnly
    uniquePhaseIds_exDocInboxOnly
  have h2 := h.2 (by decide)
  simpa using h2

/-- C2 (counterexample): the claim asserts `createArea` places the new
area at the front (index 0) of the areas list; the source appends it
(`areas: [...prev.areas, newArea]`).  On a document with one existing
area, the result is not the new area consed in front. -/
theorem C2_insertPosition_counterexample :
    (addArea "a9" "Ops" "star" none exDocFull).areas
      ≠ ({ id := "a9", title := "Ops", description := none, icon := "star",
           tasks := [], projects := [], resources := [], labels := [],
           groupId := none } : Area) :: exDocFull.areas := by
  decide

/-- C2 (amended): `createTask` and `createProject` insert the new entity
at the front of the target collection, while `createArea`, `createGroup`
and `createPhase` append it at the end. -/
theorem C2_insertPosition_amended :
    (∀ (i t ic : String) (g : Option String) (d : LifeOSData),
      (addArea i t ic g d).areas = d.areas ++
        [{ id := i, title := t, description := none, icon := ic, tasks := [],
           projects := [], resources := [], labels := [], groupId := g }]) ∧
    (∀ (i t : String) (d : LifeOSData),
      (addGroup i t d).areaGroups = d.areaGroups ++ [{ id := i, title := t }]) ∧
    (∀ (i ts t : String) (d : LifeOSData), ¬ t = "" →
      (handleAddTask i ts t MoveTarget.inbox none d).inbox
        = { id := i, title := t, description := some "",
            status := Status.Backlog, priority := Priority.P2,
            contextTags := [], energy := Energy.Low, deadline := none,
            labels := [], attachments := none, createdAt := ts } :: d.inbox) ∧
    (∀ (i ts t aid : String) (d : LifeOSData) (pre post : List Area)
      (a : Area), ¬ t = "" → ¬ aid = "" →
      d.areas = pre ++ a :: post →
      (∀ b ∈ pre, (b.id == aid) = false) → (a.id == aid) = true →
      (handleAddTask i ts t MoveTarget.area (some aid) d).areas
        = pre ++ { a with tasks :=
            { id := i, title := t, description := some "",
              status := Status.Backlog, priority := Priority.P2,
              contextTags := [], energy := Energy.Low, deadline := none,
              labels := [], attachments := none,
              createdAt := ts } :: a.tasks } :: post) ∧
    (∀ (i t aid sd ed : String) (d : LifeOSData) (pre post : List Area)
      (a : Area), ¬ t = "" →
      d.areas = pre ++ a :: post →
      (∀ b ∈ pre, (b.id == aid) = false) → (a.id == aid) = true →
      (handleAddProject i t aid sd ed d).areas
        = pre ++ { a with projects :=
            { id := i, title := t, description := "",
              status := Status.Backlog, tasks := [], startDate := sd,
              endDate := ed, phases := [], resources := [], labels := [],
              attachments := none } :: a.projects } :: post) ∧
    (∀ (i t pid : String) (d : LifeOSData) (preA postA : List Area)
      (a : Area) (pre post : List Project) (p : Project), ¬ t = "" →
      d.areas = preA ++ a :: postA →
      (∀ b ∈ preA, ∀ q ∈ b.projects, (q.id == pid) = false) →
      (∀ b ∈ postA, ∀ q ∈ b.projects, (q.id == pid) = false) →
      a.projects = pre ++ p :: post →
      (∀ q ∈ pre, (q.id == pid) = false) → (p.id == pid) = true →
      (handleAddPhase i t pid d).areas
        = preA ++ { a with projects := pre ++
            { p with phases := p.phases ++
                [{ id := i, title := t, description := some "",
                   status := Status.Backlog, startDate := none,
                   endDate := none, tasks := [], labels := [],
                   attachments := none }] } :: post } :: postA) := by
  refine ⟨?_, ?_, ?_, ?_, ?_, ?_⟩
  · intro i t ic g d
    simp [addArea]
  · intro i t d
    simp [addGroup]
  · intro i ts t d ht
    simp [handleAddTask, strTruthy, ht]
  · intro i ts t aid d pre post a ht haid hd hpre ha
    simp only [handleAddTask, strTruthy, haid, if_false, ht, hd]
    rw [updateFirst_append_cons _ _ a ha pre post hpre]
  · intro i t aid sd ed d pre post a ht hd hpre ha
    simp only [handleAddProject, ht, if_false, hd]
    rw [updateFirst_append_cons _ _ a ha pre post hpre]
  · intro i t pid d preA postA a pre post p ht hd hpreA hpostA hp hpre hpid
    simp only [handleAddPhase, ht, if_false, hd, List.map_append,
      List.map_cons]
    have hid : ∀ b : Area,
        (∀ q ∈ b.projects, (q.id == pid) = false) →
        ({ b with projects :=
            (updateFirst (fun q => q.id == pid)
              (fun q => { q with phases := q.phases ++
                  [{ id := i, title := t, description := some "",
                     status := Status.Backlog, startDate := none,
                     endDate := none, tasks := [], labels := [],
                     attachments := none }] })
              b.projects) } : Area) = b := by
      intro b hb
      have hany : (b.projects.any fun q => q.id == pid) = false := by
        rw [List.any_eq_false]
        intro q hq
        simp [hb q hq]
      rw [updateFirst_of_not_any _ _ _ hany]
    have h1 : preA.map (fun b : Area =>
        { b with projects :=
            (updateFirst (fun q => q.id == pid)
              (fun q => { q with phases := q.phases ++
                  [{ id := i, title := t, description := some "",
                     status := Status.Backlog, startDate := none,
                     endDate := none, tasks := [], labels := [],
                     attachments := none }] })
              b.projects) }) = preA :=
      map_eq_self_of _ preA fun b hbm => hid b (hpreA b hbm)
    have h2 : postA.map (fun b : Area =>
        { b with projects :=
            (updateFirst (fun q => q.id == pid)
              (fun q => { q with phases := q.phases ++
                  [{ id := i, title := t, description := some "",
                     status := Status.Backlog, startDate := none,
                     endDate := none, tasks := [], labels := [],
                     attachments := none }] })
              b.projects) }) = postA :=
      map_eq_self_of _ postA fun b hbm => hid b (hpostA b hbm)
    rw [h1, h2, hp, updateFirst_append_cons _ _ p hpid pre post hpre]

/-- C2 (witness): the amended front-insertion of `createTask` into the
inbox, applied to the sample document. -/
theorem C2_insertPosition_witness :
    (handleAddTask "t9" "2024-05-01" "Read" MoveTarget.inbox none
        exDocFull).inbox
      = { id := "t9", title := "Read", description := some "",
          status := Status.Backlog, priority := Priority.P2,
          contextTags := [], energy := Energy.Low, deadline := none,
          labels := [], attachments := none,
          createdAt := "2024-05-01" } :: exDocFull.inbox :=
  C2_insertPosition_amended.2.2.1 "t9" "2024-05-01" "Read" exDocFull
    (by decide)

/-- C6: `deleteTask(id)` leaves zero occurrences of the id in any task
container, preserves the occurrence count of every other task id, and
changes nothing besides task lists (the task-erased shape of the document
is unchanged, area groups included). -/
theorem C6_deleteTask_complete (d : LifeOSData) (tid : String) :
    taskCount tid (deleteTask tid d) = 0 ∧
    (∀ j, ¬ j = tid → taskCount j (deleteTask tid d) = taskCount j d) ∧
    docShape (deleteTask tid d) = docShape d ∧
    (deleteTask tid d).areaGroups = d.areaGroups := by
  refine ⟨?_, ?_, ?_, rfl⟩
  · simp only [deleteTask, taskCount]
    rw [countIn_filter_self]
    simp only [Nat.zero_add]
    rw [List.map_map, sum_map_eq_zero_iff]
    intro a _
    simp only [Function.comp_def, areaCount]
    rw [countIn_filter_self]
    simp only [Nat.zero_add]
    rw [List.map_map, sum_map_eq_zero_iff]
    intro p _
    simp only [Function.comp_def, projectCount]
    rw [countIn_filter_self]
    simp only [Nat.zero_add]
    rw [List.map_map, sum_map_eq_zero_iff]
    intro ph _
    simp only [Function.comp_def, phaseCount]
    rw [countIn_filter_self]
  · intro j hj
    simp only [deleteTask, taskCount]
    rw [countIn_filter_ne tid j hj, List.map_map]
    congr 1
    refine sum_map_congr _ _ _ ?_
    intro a _
    simp only [Function.comp_def, areaCount]
    rw [countIn_filter_ne tid j hj, List.map_map]
    congr 1
    refine sum_map_congr _ _ _ ?_
    intro p _
    simp only [Function.comp_def, projectCount]
    rw [countIn_filter_ne tid j hj, List.map_map]
    congr 1
    refine sum_map_congr _ _ _ ?_
    intro ph _
    simp only [Function.comp_def, phaseCount]
    rw [countIn_filter_ne tid j hj]
  · have hph : ∀ ph : Phase,
        phaseShape { ph with tasks := ph.tasks.filter fun t => !(t.id == tid) }
          = phaseShape ph := fun _ => rfl
    have hpr : ∀ p : Project,
        projectShape
            { p with
              tasks := p.tasks.filter fun t => !(t.id == tid)
              phases := p.phases.map fun ph =>
                { ph with tasks := ph.tasks.filter fun t => !(t.id == tid) } }
          = projectShape p := by
      intro p
      simp only [projectShape]
      rw [map_map_eq_map _ _ hph]
    have ha : ∀ a : Area,
        areaShape
            { a with
              tasks := a.tasks.filter fun t => !(t.id == tid)
              projects := a.projects.map fun p =>
                { p with
                  tasks := p.tasks.filter fun t => !(t.id == tid)
                  phases := p.phases.map fun ph =>
                    { ph with tasks :=
                        ph.tasks.filter fun t => !(t.id == tid) } } }
          = areaShape a := by
      intro a
      simp only [areaShape]
      rw [map_map_eq_map _ _ hpr]
    simp only [docShape, deleteTask]
    congr 1
    exact map_map_eq_map _ _ ha d.areas

/-- C6 (witness): deleting `t1` from the sample document removes every
occurrence of `t1` and keeps the count of `t2`. -/
theorem C6_deleteTask_complete_witness :
    taskCount "t1" (deleteTask "t1" exDocFull) = 0 ∧
    taskCount "t2" (deleteTask "t1" exDocFull) = taskCount "t2" exDocFull :=
  ⟨(C6_deleteTask_complete exDocFull "t1").1,
    (C6_deleteTask_complete exDocFull "t1").2.1 "t2" (by decide)⟩

/-- C7: starting from `{areas: [], inbox: []}`,
`createTask("Buy milk", inbox)` yields exactly one inbox task titled
"Buy milk" with status Backlog, priority P2 and energy Low; toggling it
makes it Done, toggling again makes it In Progress; and in general
`toggleTaskStatus` maps the found task's status to In Progress when it
was Done and to Done otherwise. -/
theorem C7_createTask_toggle :
    scenarioD1.inbox
      = [{ id := "t1", title := "Buy milk", description := some "",
           status := Status.Backlog, priority := Priority.P2,
           contextTags := [], energy := Energy.Low, deadline := none,
           labels := [], attachments := none,
           createdAt := "2024-05-01T10:00:00.000Z" }] ∧
    (toggleTaskStatus "t1" scenarioD1).inbox.map Task.status
      = [Status.Done] ∧
    (toggleTaskStatus "t1" (toggleTaskStatus "t1" scenarioD1)).inbox.map
        Task.status
      = [Status.InProgress] ∧
    (∀ (d : LifeOSData) (tid : String) (t : Task),
      findTask tid d = some t →
      findTask tid (toggleTaskStatus tid d)
        = some { t with status :=
            if t.status = Status.Done then Status.InProgress
            else Status.Done }) := by
  refine ⟨by decide, by decide, by decide, ?_⟩
  intro d tid t h
  rw [findTask_toggle, h]
  rfl

/-- C7 (witness): the general toggle law applied to the scenario document
after the first toggle: the Done task flips to In Progress, not back to
Backlog. -/
theorem C7_createTask_toggle_witness :
    findTask "t1" (toggleTaskStatus "t1" (toggleTaskStatus "t1" scenarioD1))
      = some { id := "t1", title := "Buy milk", description := some "",
               status := Status.InProgress, priority := Priority.P2,
               contextTags := [], energy := Energy.Low, deadline := none,
               labels := [], attachments := none,
               createdAt := "2024-05-01T10:00:00.000Z" } := by
  have h := C7_createTask_toggle.2.2.2 (toggleTaskStatus "t1" scenarioD1)
    "t1"
    { id := "t1", title := "Buy milk", description := some "",
      status := Status.Done, priority := Priority.P2, contextTags := [],
      energy := Energy.Low, deadline := none, labels := [],
      attachments := none, createdAt := "2024-05-01T10:00:00.000Z" }
    (by decide)
  simpa using h

/-- C9: the `'task'` branch of `handleFileUpload` searches only the inbox
and the phases' task lists: areas' and projects' direct task lists are
never modified, and on a one-location document whose target task sits in
an area's or a project's direct list the whole document is returned
unchanged — the attachment is silently not added although the task
exists. -/
theorem C9_fileUpload_task_scope (att : Attachment) (tid : String)
    (d : LifeOSData) :
    ((handleFileUpload att tid UploadTarget.task d).areas.map fun a => a.tasks)
      = (d.areas.map fun a => a.tasks) ∧
    ((handleFileUpload att tid UploadTarget.task d).areas.map fun a =>
        a.projects.map fun p => p.tasks)
      = (d.areas.map fun a => a.projects.map fun p => p.tasks) ∧
    (OneLoc d →
      ((∃ a ∈ d.areas, hasTask tid a.tasks = true) ∨
        (∃ a ∈ d.areas, ∃ p ∈ a.projects, hasTask tid p.tasks = true)) →
      handleFileUpload att tid UploadTarget.task d = d) := by
  refine ⟨?_, ?_, ?_⟩
  · simp only [handleFileUpload, List.map_map]
    rfl
  · simp only [handleFileUpload, List.map_map]
    refine map_congr_fun _ _ d.areas ?_
    intro a _
    simp only [Function.comp_def, List.map_map]
  · intro h1 hocc
    have hdec := taskCount_decomp tid d
    have hle := h1 tid
    have hone : 1 ≤ (d.areas.map fun a => countIn tid a.tasks).sum
        + (d.areas.map fun a =>
            (a.projects.map fun p => countIn tid p.tasks).sum).sum := by
      rcases hocc with ⟨a, ha, hh⟩ | ⟨a, ha, p, hp, hh⟩
      · have hpos : 1 ≤ countIn tid a.tasks := by
          rcases Nat.eq_zero_or_pos (countIn tid a.tasks) with h0 | h0
          · rw [← hasTask_false_iff] at h0
            rw [hh] at h0
            exact absurd h0 (by simp)
          · exact h0
        have hm : countIn tid a.tasks
            ≤ (d.areas.map fun b => countIn tid b.tasks).sum :=
          mem_map_le_sum (fun b : Area => countIn tid b.tasks) d.areas a ha
        omega
      · have hpos : 1 ≤ countIn tid p.tasks := by
          rcases Nat.eq_zero_or_pos (countIn tid p.tasks) with h0 | h0
          · rw [← hasTask_false_iff] at h0
            rw [hh] at h0
            exact absurd h0 (by simp)
          · exact h0
        have hm1 : countIn tid p.tasks
            ≤ (a.projects.map fun q => countIn tid q.tasks).sum :=
          mem_map_le_sum (fun q : Project => countIn tid q.tasks)
            a.projects p hp
        have hm2 : (a.projects.map fun q => countIn tid q.tasks).sum
            ≤ (d.areas.map fun b =>
                (b.projects.map fun q => countIn tid q.tasks).sum).sum :=
          mem_map_le_sum
            (fun b : Area => (b.projects.map fun q => countIn tid q.tasks).sum)
            d.areas a ha
        omega
    have hinbox : countIn tid d.inbox = 0 := by omega
    have hphases : (d.areas.map fun a =>
        (a.projects.map fun p =>
          (p.phases.map fun ph => countIn tid ph.tasks).sum).sum).sum = 0 := by
      omega
    have hinb : attachInList tid att d.inbox = d.inbox := by
      have hfalse : hasTask tid d.inbox = false :=
        (hasTask_false_iff tid d.inbox).mpr hinbox
      simp only [attachInList]
      exact updateFirst_of_not_any _ _ _ hfalse
    have hareas : (d.areas.map fun a =>
        { a with projects := a.projects.map fun p =>
            { p with phases := p.phases.map fun ph =>
                { ph with tasks := attachInList tid att ph.tasks } } })
        = d.areas := by
      refine map_eq_self_of _ d.areas ?_
      intro a ha
      have hA := (sum_map_eq_zero_iff _ d.areas).mp hphases a ha
      have hprojects : (a.projects.map fun p =>
          { p with phases := p.phases.map fun ph =>
              { ph with tasks := attachInList tid att ph.tasks } })
          = a.projects := by
        refine map_eq_self_of _ a.projects ?_
        intro p hp
        have hP := (sum_map_eq_zero_iff _ a.projects).mp hA p hp
        have hphs : (p.phases.map fun ph =>
            { ph with tasks := attachInList tid att ph.tasks })
            = p.phases := by
          refine map_eq_self_of _ p.phases ?_
          intro ph hph
          have h0 := (sum_map_eq_zero_iff _ p.phases).mp hP ph hph
          have hfalse : hasTask tid ph.tasks = false :=
            (hasTask_false_iff tid ph.tasks).mpr h0
          have hid : attachInList tid att ph.tasks = ph.tasks := by
            simp only [attachInList]
            exact updateFirst_of_not_any _ _ _ hfalse
          rw [hid]
        rw [hphs]
      rw [hprojects]
    simp only [handleFileUpload]
    rw [hinb, hareas]

/-- The four sample tasks of `exDocFull` have pairwise distinct ids, so
every task id occurs at most once. -/
theorem oneLoc_exDocFull : OneLoc exDocFull := by
  intro i
  rcases eq_or_ne i "t1" with h | h1
  · subst h; decide
  rcases eq_or_ne i "t2" with h | h2
  · subst h; decide
  rcases eq_or_ne i "t3" with h | h3
  · subst h; decide
  rcases eq_or_ne i "t4" with h | h4
  · subst h; decide
  have e1 : ("t1" == i) = false := by
    simp
    exact fun hh => h1 hh.symm
  have e2 : ("t2" == i) = false := by
    simp
    exact fun hh => h2 hh.symm
  have e3 : ("t3" == i) = false := by
    simp
    exact fun hh => h3 hh.symm
  have e4 : ("t4" == i) = false := by
    simp
    exact fun hh => h4 hh.symm
  simp [taskCount, areaCount, projectCount, phaseCount, countIn, exDocFull,
    sampleArea, sampleProject, samplePhase, sampleTask, List.countP_cons,
    List.countP_nil, e1, e2, e3, e4]

/-- C9 (witness): on a one-location document whose task `t2` sits in the
area's direct list, the upload leaves the document unchanged. -/
theorem C9_fileUpload_task_scope_witness :
    handleFileUpload
        { id := "att1", name := "a.txt", url := "blob:a", atype := "text/plain",
          size := 3, createdAt := "2024-05-01" }
        "t2" UploadTarget.task exDocFull = exDocFull := by
  refine (C9_fileUpload_task_scope _ "t2" exDocFull).2.2 oneLoc_exDocFull ?_
  left
  refine ⟨sampleArea "a1" [sampleTask "t2"]
    [sampleProject "p1" [sampleTask "t3"]
      [samplePhase "ph1" [sampleTask "t4"]]], by simp [exDocFull], ?_⟩
  decide

/-- C5: `normalizeData` is idempotent — normalizing an already-normalized
document (for any raw input, including empty and partial ones) yields the
identical document. -/
theorem C5_normalizeData_idempotent (d : RawDoc) :
    normalizeData (normalizeData d) = normalizeData d := by
  simp [normalizeData,
    map_map_eq_map normalizeTask normalizeTask normalizeTask_idem,
    map_map_eq_map normalizeArea normalizeArea normalizeArea_idem]

/-- C10: with no cached document, the initial in-memory state is the
normalized seed `INITIAL_DATA` — empty groups and inbox and exactly the
two areas Work (id "1", briefcase) and Health (id "2", heart) with empty
collections — and not the empty document. -/
theorem C10_initialState_seeded :
    initialState none
      = { areaGroups := some []
          areas := some
            [{ id := "1", title := some "Work", description := some "",
               icon := some "briefcase", tasks := some [],
               projects := some [], resources := some [], labels := some [],
               groupId := none },
             { id := "2", title := some "Health", description := some "",
               icon := some "heart", tasks := some [], projects := some [],
               resources := some [], labels := some [], groupId := none }]
          inbox := some [] } ∧
    initialState none
      ≠ normalizeData { areaGroups := none, areas := none, inbox := none } := by
  constructor <;> decide

/-- C3: the one load performed when an identity appears — an existing
remote row is adopted (normalized) into memory and the local cache; an
absent row triggers a seed upsert of the local cache document when one
exists and pushes nothing otherwise, keeping memory; a read error other
than the no-rows code `PGRST116` only records the message, leaving memory
and cache untouched. -/
theorem C3_loadFromCloud_cases (res : ReadResult) (st : SyncState) :
    (∀ r : RawDoc, res.row = some r →
      (∀ e, res.error = some e → e.code = "PGRST116") →
      loadFromCloud res st
        = { st := { mem := normalizeData r, cache := some (normalizeData r),
                    lastSyncError := none },
            pushed := none, loaded := true }) ∧
    (res.row = none → (∀ e, res.error = some e → e.code = "PGRST116") →
      ∀ c, st.cache = some c →
        loadFromCloud res st
          = { st := { st with lastSyncError := none },
              pushed := some c, loaded := true }) ∧
    (res.row = none → (∀ e, res.error = some e → e.code = "PGRST116") →
      st.cache = none →
      loadFromCloud res st
        = { st := { st with lastSyncError := none },
            pushed := none, loaded := true }) ∧
    (∀ e, res.error = some e → ¬ e.code = "PGRST116" →
      loadFromCloud res st
        = { st := { st with lastSyncError := some e.message },
            pushed := none, loaded := false }) := by
  refine ⟨?_, ?_, ?_, ?_⟩
  · intro r hr he
    cases herr : res.error with
    | none => simp [loadFromCloud, herr, hr]
    | some e =>
      have hc := he e herr
      simp [loadFromCloud, herr, hr, hc]
  · intro hr he c hc
    cases herr : res.error with
    | none => simp [loadFromCloud, herr, hr, loadNewUserBranch, hc]
    | some e =>
      have hcode := he e herr
      simp [loadFromCloud, herr, hr, hcode, loadNewUserBranch, hc]
  · intro hr he hc
    cases herr : res.error with
    | none => simp [loadFromCloud, herr, hr, loadNewUserBranch, hc]
    | some e =>
      have hcode := he e herr
      simp [loadFromCloud, herr, hr, hcode, loadNewUserBranch, hc]
  · intro e herr hne
    simp [loadFromCloud, herr, hne]

/-- C3 (witness): a no-row read with a cached local document pushes that
document as the seed and keeps the in-memory state. -/
theorem C3_loadFromCloud_cases_witness :
    loadFromCloud { row := none, error := none }
        { mem := exRawDoc, cache := some exRawDoc2, lastSyncError := none }
      = { st := { mem := exRawDoc, cache := some exRawDoc2,
                  lastSyncError := none },
          pushed := some exRawDoc2, loaded := true } := by
  have h := (C3_loadFromCloud_cases { row := none, error := none }
      { mem := exRawDoc, cache := some exRawDoc2,
        lastSyncError := none }).2.1
    rfl (fun e he => by cases he) exRawDoc2 rfl
  simpa using h

/-- C8: the debounced upsert callback never touches the in-memory document
or the local cache; a store error or a thrown exception is recorded as the
`lastSyncError` message, and a successful upsert clears it. -/
theorem C8_fireSave_frame (o : UpsertOutcome) (st : SyncState) :
    (fireSave o st).mem = st.mem ∧
    (fireSave o st).cache = st.cache ∧
    (fireSave o st).lastSyncError
      = (match o with
         | UpsertOutcome.ok => none
         | UpsertOutcome.storeError m => some m
         | UpsertOutcome.thrown m => some m) := by
  cases o <;> simp [fireSave]

/-- C4: a burst of N ≥ 1 edits inside the debounce window produces, when
the last timer fires, exactly one remote write holding the state after the
last edit, while the local cache is written once per edit with that edit's
state, user present or not. -/
theorem C4_debounce_collapse (u : Bool) (ds : List RawDoc) (d : RawDoc) :
    (fireTimer (runEdits true (ds ++ [d]) debounceInit)).remoteWrites
      = [d] ∧
    (runEdits u (ds ++ [d]) debounceInit).cacheWrites = ds ++ [d] := by
  constructor
  · have hp := runEdits_pending_last ds d debounceInit
    have hr := runEdits_remoteWrites true (ds ++ [d]) debounceInit
    simp only [fireTimer]
    rw [hp]
    show (runEdits true (ds ++ [d]) debounceInit).remoteWrites ++ [d] = [d]
    rw [hr]
    rfl
  · rw [runEdits_cacheWrites]
    simp [debounceInit]

end ArthurPM
